import Mathlib

/-!
# WAF Regional SQL injection match set: tuple identity and tuple diff

A shallow embedding of `internal/service/wafregional/sql_injection_match_set.go`.

A set element of the `sql_injection_match_tuple` attribute is a Go
`map[string]any`.  The embedding keeps exactly the keys the code reads:

* `field_to_match` : a one-element list whose element is a map with the
  optional key `data` and the key `type`;
* `text_transformation` : a string.
-/

namespace WAFRegional

/-! ## Data model -/

/-- The map stored at index 0 of a tuple's `field_to_match` list.  The key
`data` is optional in the schema and the code tests for its presence, so it is
an `Option`; `type` is required. -/
structure FieldToMatchMap where
  data : Option String
  type : String
deriving DecidableEq, Repr

/-- One element of the `sql_injection_match_tuple` set (`map[string]any`).
`field_to_match` is a required block with `MaxItems: 1`; the embedding stores
the single element of that list. -/
structure TupleMap where
  field_to_match : FieldToMatchMap
  text_transformation : String
deriving DecidableEq, Repr

/-- `awstypes.ChangeAction`, restricted to the two values the diff emits. -/
inductive ChangeAction where
  | Insert
  | Delete
deriving DecidableEq, Repr

/-- `awstypes.FieldToMatch`: `Data` is a `*string`, `Type` a string enum. -/
structure FieldToMatch where
  Data : Option String
  Type_ : String
deriving DecidableEq, Repr

/-- `awstypes.SqlInjectionMatchTuple`. -/
structure SqlInjectionMatchTuple where
  FieldToMatch : FieldToMatch
  TextTransformation : String
deriving DecidableEq, Repr

/-- `awstypes.SqlInjectionMatchSetUpdate`. -/
structure SqlInjectionMatchSetUpdate where
  Action : ChangeAction
  SqlInjectionMatchTuple : SqlInjectionMatchTuple
deriving DecidableEq, Repr

/-! ## Record identity -/

/-- `strings.ToLower`, character by character, on ASCII text: the letters `A`
to `Z` are mapped to `a` to `z` and every other character is kept.  The Go
function also lower-cases the letters outside ASCII, which this definition
leaves as they are; the statements below evaluate it on ASCII literals only and
otherwise use no property of it. -/
def toLower (s : String) : String := ⟨s.data.map Char.toLower⟩

/-- The contents of `buf` at the end of `resourceSQLInjectionMatchSetTupleHash`:
the lower-cased `data` followed by `-` when the key is present, then the type
and `-`, then the text transformation and `-`.  The guard on the key
`field_to_match` is always taken for a set element of this schema. -/
def tupleHashBuffer (v : TupleMap) : String :=
  let buf := ""
  let ftm := v.field_to_match
  let buf := match ftm.data with
    | some d => buf ++ toLower d ++ "-"
    | none => buf
  let buf := buf ++ ftm.type ++ "-"
  buf ++ v.text_transformation ++ "-"

/-- `resourceSQLInjectionMatchSetTupleHash`.  `create.StringHashcode` is not
among the sources, so it is the parameter `hashcode`. -/
def resourceSQLInjectionMatchSetTupleHash (hashcode : String → Int) (v : TupleMap) : Int :=
  hashcode (tupleHashBuffer v)

/-- A sample value for the `hashcode` parameter (a 32-bit polynomial hash),
used to instantiate the theorems on concrete records. -/
def sampleHashcode (s : String) : Int :=
  Int.ofNat (s.data.foldl (fun h c => (31 * h + c.toNat) % 4294967296) 0)

/-- A match tuple with the given `data`, `type` and `text_transformation`. -/
def mkTuple (data : Option String) (type tt : String) : TupleMap :=
  { field_to_match := { data := data, type := type }, text_transformation := tt }

/-- Two records have the same Record Identity. -/
def sameIdentity (hashcode : String → Int) (a b : TupleMap) : Prop :=
  resourceSQLInjectionMatchSetTupleHash hashcode a =
    resourceSQLInjectionMatchSetTupleHash hashcode b

instance (hashcode : String → Int) (a b : TupleMap) : Decidable (sameIdentity hashcode a b) :=
  inferInstanceAs (Decidable (_ = _))

/-- The list is a set keyed by Record Identity: no two of its records have the
same identity.  This is what `(*schema.Set).List()` hands to the diff, the set
being built with `Set: resourceSQLInjectionMatchSetTupleHash`. -/
def UniqueIdentities (hashcode : String → Int) (l : List TupleMap) : Prop :=
  (l.map (resourceSQLInjectionMatchSetTupleHash hashcode)).Nodup

instance (hashcode : String → Int) (l : List TupleMap) : Decidable (UniqueIdentities hashcode l) :=
  inferInstanceAs (Decidable (List.Nodup _))

/-! ## The tuple diff -/

/-- Modelled from the spec: `expandFieldToMatch` is not among the sources.  An
operation carries a complete copy of the record's fields, so the expansion
copies `data` and `type` one to one. -/
def expandFieldToMatch (d : FieldToMatchMap) : FieldToMatch :=
  { Data := d.data, Type_ := d.type }

/-- Modelled from the spec: `sliceContainsMap` is not among the sources.  A
previous record is unchanged when an identity-equal record exists in the
desired list; the helper returns the index of the first such record
(`some idx` for `(idx, true)`, `none` for `(-1, false)`). -/
def sliceContainsMap (hashcode : String → Int) : List TupleMap → TupleMap → Option Nat
  | [], _ => none
  | t :: l, m =>
    if sameIdentity hashcode m t then some 0
    else (sliceContainsMap hashcode l m).map (· + 1)

/-- The update appended by the first loop for an unmatched previous record. -/
def deleteUpdate (tuple : TupleMap) : SqlInjectionMatchSetUpdate :=
  { Action := ChangeAction.Delete
    SqlInjectionMatchTuple :=
      { FieldToMatch := expandFieldToMatch tuple.field_to_match
        TextTransformation := tuple.text_transformation } }

/-- The update appended by the second loop for a remaining desired record. -/
def insertUpdate (tuple : TupleMap) : SqlInjectionMatchSetUpdate :=
  { Action := ChangeAction.Insert
    SqlInjectionMatchTuple :=
      { FieldToMatch := expandFieldToMatch tuple.field_to_match
        TextTransformation := tuple.text_transformation } }

/-- One iteration of the first loop of `diffSQLInjectionMatchTuplesWR` on the
state `(updates, newT)`. -/
def diffStep (hashcode : String → Int)
    (st : List SqlInjectionMatchSetUpdate × List TupleMap) (tuple : TupleMap) :
    List SqlInjectionMatchSetUpdate × List TupleMap :=
  match sliceContainsMap hashcode st.2 tuple with
  | some idx => (st.1, st.2.eraseIdx idx)
  | none => (st.1 ++ [deleteUpdate tuple], st.2)

/-- `diffSQLInjectionMatchTuplesWR` on values: the first loop walks `oldT`,
dropping from `newT` the record matched by `sliceContainsMap` or appending a
Delete; the second loop appends an Insert for every record left in `newT`. -/
def diffSQLInjectionMatchTuplesWR (hashcode : String → Int) (oldT newT : List TupleMap) :
    List SqlInjectionMatchSetUpdate :=
  let st := oldT.foldl (diffStep hashcode) ([], newT)
  st.2.foldl (fun updates tuple => updates ++ [insertUpdate tuple]) st.1

/-! ### The diff with the caller's slice made explicit

`newT = slices.Delete(newT, idx, idx+1)` shifts the elements of the backing
array that the caller's slice shares and zeroes the vacated last cell.  The
state below keeps the local slice and the cells of the caller's slice that lie
behind it; a zeroed cell is `none`. -/

/-- The helper `sliceContainsMap` on a slice that may hold nil cells: computing
the identity of a nil cell fails (`v.(map[string]any)` in
`resourceSQLInjectionMatchSetTupleHash`), which is the outer `none`. -/
def sliceContainsMapCells (hashcode : String → Int) :
    List (Option TupleMap) → TupleMap → Option (Option Nat)
  | [], _ => some none
  | none :: _, _ => none
  | some t :: l, m =>
    if sameIdentity hashcode m t then some (some 0)
    else (sliceContainsMapCells hashcode l m).map (fun r => r.map (· + 1))

/-- State of the first loop: the updates, the local slice `newT`, and the cells
of the caller's slice behind the local one. -/
structure DiffState where
  updates : List SqlInjectionMatchSetUpdate
  newT : List (Option TupleMap)
  behind : List (Option TupleMap)
deriving DecidableEq, Repr

/-- One iteration of the first loop on the explicit state; `none` is a panic. -/
def diffStepCells (hashcode : String → Int) (st : DiffState) (tuple : TupleMap) :
    Option DiffState :=
  match sliceContainsMapCells hashcode st.newT tuple with
  | none => none
  | some (some idx) =>
    some { updates := st.updates, newT := st.newT.eraseIdx idx, behind := none :: st.behind }
  | some none =>
    some { updates := st.updates ++ [deleteUpdate tuple], newT := st.newT, behind := st.behind }

/-- The second loop on cells: `nd.(map[string]any)` panics on a nil cell. -/
def insertLoopCells :
    List (Option TupleMap) → List SqlInjectionMatchSetUpdate →
      Option (List SqlInjectionMatchSetUpdate)
  | [], updates => some updates
  | none :: _, _ => none
  | some tuple :: l, updates => insertLoopCells l (updates ++ [insertUpdate tuple])

/-- `diffSQLInjectionMatchTuplesWR` with its effect on the caller: the result
is the returned updates together with the contents of the caller's `newT`
slice after the call, or `none` when the call panics. -/
def diffSQLInjectionMatchTuplesWRCells (hashcode : String → Int) (oldT : List TupleMap)
    (newT : List (Option TupleMap)) :
    Option (List SqlInjectionMatchSetUpdate × List (Option TupleMap)) :=
  match oldT.foldlM (diffStepCells hashcode) { updates := [], newT := newT, behind := [] } with
  | none => none
  | some st =>
    match insertLoopCells st.newT st.updates with
    | none => none
    | some updates => some (updates, st.newT ++ st.behind)

/-- Two successive evaluations of the diff by the closure that
`updateSQLInjectionMatchSet` hands to the retryer: both read the same captured
slice `newT`, so the second sees the cells the first left behind. -/
def diffTwice (hashcode : String → Int) (oldT newT : List TupleMap) :
    Option (List SqlInjectionMatchSetUpdate × Option (List SqlInjectionMatchSetUpdate)) :=
  match diffSQLInjectionMatchTuplesWRCells hashcode oldT (newT.map some) with
  | none => none
  | some (first, cells) =>
    some (first, (diffSQLInjectionMatchTuplesWRCells hashcode oldT cells).map Prod.fst)

/-! ## Applying a list of updates to a collection -/

/-- The record an update restates. -/
def carriedRecord (u : SqlInjectionMatchSetUpdate) : TupleMap :=
  { field_to_match :=
      { data := u.SqlInjectionMatchTuple.FieldToMatch.Data
        type := u.SqlInjectionMatchTuple.FieldToMatch.Type_ }
    text_transformation := u.SqlInjectionMatchTuple.TextTransformation }

/-- The records carried by the Delete operations of a list of updates. -/
def deletedRecords (us : List SqlInjectionMatchSetUpdate) : List TupleMap :=
  (us.filter (fun u => u.Action = ChangeAction.Delete)).map carriedRecord

/-- The records carried by the Insert operations of a list of updates. -/
def insertedRecords (us : List SqlInjectionMatchSetUpdate) : List TupleMap :=
  (us.filter (fun u => u.Action = ChangeAction.Insert)).map carriedRecord

/-- Take the collection, remove the records carried by the Delete operations,
then add the records carried by the Insert operations. -/
def applyUpdates (P : List TupleMap) (us : List SqlInjectionMatchSetUpdate) : List TupleMap :=
  P.filter (fun r => decide (r ∉ deletedRecords us)) ++ insertedRecords us

/-! ## Auxiliary views of the two loops -/

/-- Some record of `l` has the same identity as `r`. -/
def hasMatch (hashcode : String → Int) (l : List TupleMap) (r : TupleMap) : Bool :=
  l.any (fun x => decide (sameIdentity hashcode r x))

/-- The previous records for which the first loop finds no match, in order. -/
def unmatchedOld (hashcode : String → Int) : List TupleMap → List TupleMap → List TupleMap
  | [], _ => []
  | p :: P, D =>
    match sliceContainsMap hashcode D p with
    | some idx => unmatchedOld hashcode P (D.eraseIdx idx)
    | none => p :: unmatchedOld hashcode P D

/-- The previous records for which the first loop finds a match, in order. -/
def matchedOld (hashcode : String → Int) : List TupleMap → List TupleMap → List TupleMap
  | [], _ => []
  | p :: P, D =>
    match sliceContainsMap hashcode D p with
    | some idx => p :: matchedOld hashcode P (D.eraseIdx idx)
    | none => matchedOld hashcode P D

/-- The contents of `newT` when the first loop ends. -/
def remainingNew (hashcode : String → Int) : List TupleMap → List TupleMap → List TupleMap
  | [], D => D
  | p :: P, D =>
    match sliceContainsMap hashcode D p with
    | some idx => remainingNew hashcode P (D.eraseIdx idx)
    | none => remainingNew hashcode P D

/-- The fields on which the claim about identity compares two records: presence
and lower-cased value of `data`, the `type`, and the text transformation. -/
def agreeOnIdentityFields (r1 r2 : TupleMap) : Prop :=
  r1.field_to_match.data.map toLower = r2.field_to_match.data.map toLower ∧
    r1.field_to_match.type = r2.field_to_match.type ∧
    r1.text_transformation = r2.text_transformation

instance (r1 r2 : TupleMap) : Decidable (agreeOnIdentityFields r1 r2) :=
  inferInstanceAs (Decidable (_ ∧ _))

/-! ## The diff with the helper as a parameter

`diffSQLInjectionMatchTuplesWR` hands the helper the slice and the map and
never computes the hash itself.  What the helper compares decides which records
are matched, so the statements on what is matched and on how many operations a
record gets are made for a helper that stands as a parameter and is constrained
by its contract. -/

/-- `diffSQLInjectionMatchTuplesWR` with the helper `sliceContainsMap`, which is
not among the sources, as the parameter `contains` (`some idx` for
`(idx, true)`, `none` for `(-1, false)`): the first loop walks `oldT`, dropping
from `newT` the element at the index the helper returns or appending a Delete;
the second loop appends an Insert for every record left in `newT`.  For an
index outside the slice, where `slices.Delete` panics, the definition leaves
`newT` as it is; every statement on it constrains the helper to indices within
the slice. -/
def diffSQLInjectionMatchTuplesWRWith (contains : List TupleMap → TupleMap → Option Nat)
    (oldT newT : List TupleMap) : List SqlInjectionMatchSetUpdate :=
  let st := oldT.foldl
    (fun (st : List SqlInjectionMatchSetUpdate × List TupleMap) tuple =>
      match contains st.2 tuple with
      | some idx => (st.1, st.2.eraseIdx idx)
      | none => (st.1 ++ [deleteUpdate tuple], st.2))
    ([], newT)
  st.2.foldl (fun updates tuple => updates ++ [insertUpdate tuple]) st.1

/-- A helper that compares the maps: the index of the first element of the
slice that is equal to the map. -/
def indexOfEqual : List TupleMap → TupleMap → Option Nat
  | [], _ => none
  | t :: l, m => if m = t then some 0 else (indexOfEqual l m).map (· + 1)

/-- The previous records for which the helper finds no match in the first
loop, in order. -/
def unmatchedWith (contains : List TupleMap → TupleMap → Option Nat) :
    List TupleMap → List TupleMap → List TupleMap
  | [], _ => []
  | p :: P, D =>
    match contains D p with
    | some idx => unmatchedWith contains P (D.eraseIdx idx)
    | none => p :: unmatchedWith contains P D

/-- The contents of `newT` when the first loop ends. -/
def remainingWith (contains : List TupleMap → TupleMap → Option Nat) :
    List TupleMap → List TupleMap → List TupleMap
  | [], D => D
  | p :: P, D =>
    match contains D p with
    | some idx => remainingWith contains P (D.eraseIdx idx)
    | none => remainingWith contains P D

/-! ## Sample records -/

/-- Sample record `A`. -/
def tupleA : TupleMap := mkTuple (some "a") "HEADER" "NONE"

/-- Sample record `B`. -/
def tupleB : TupleMap := mkTuple (some "b") "HEADER" "NONE"

/-- Sample record `C`. -/
def tupleC : TupleMap := mkTuple (some "c") "HEADER" "NONE"

/-- A record whose `data` is spelled with a capital. -/
def tupleFoo : TupleMap := mkTuple (some "Foo") "HEADER" "NONE"

/-- The same record with `data` in lower case. -/
def tupleFooLower : TupleMap := mkTuple (some "foo") "HEADER" "NONE"

/-- A record with `data` "x" and type "HEADER". -/
def tupleDashLeft : TupleMap := mkTuple (some "x") "HEADER" "NONE"

/-- A record without `data` whose type is "x-HEADER". -/
def tupleDashRight : TupleMap := mkTuple none "x-HEADER" "NONE"

/-! ## The identity function on untyped Go values -/

/-- A Go value of type `any`, as far as set elements are made of them: nil, a
string, a `[]any` or a `map[string]any` (an association list of its keys). -/
inductive GoValue where
  | nil : GoValue
  | str : String → GoValue
  | list : List GoValue → GoValue
  | map : List (String × GoValue) → GoValue

/-- `resourceSQLInjectionMatchSetTupleHash` on an untyped value.  Every
unchecked type assertion and the index `ftms[0]` may panic; a panic is `none`.
The two comma-ok lookups (`field_to_match`, `data`) skip an absent key. -/
def resourceSQLInjectionMatchSetTupleHashAny (hashcode : String → Int) (v : GoValue) :
    Option Int :=
  match v with
  | GoValue.map m =>
    let afterFieldToMatch : Option String :=
      match m.lookup "field_to_match" with
      | some v =>
        match v with
        | GoValue.list (GoValue.map ftm :: _) =>
          let afterData : Option String :=
            match ftm.lookup "data" with
            | some (GoValue.str d) => some ("" ++ toLower d ++ "-")
            | some _ => none
            | none => some ""
          match afterData, ftm.lookup "type" with
          | some buf, some (GoValue.str t) => some (buf ++ t ++ "-")
          | _, _ => none
        | _ => none
      | none => some ""
    match afterFieldToMatch, m.lookup "text_transformation" with
    | some buf, some (GoValue.str tt) => some (hashcode (buf ++ tt ++ "-"))
    | _, _ => none
  | _ => none

/-- A value has the shape of an element of the `sql_injection_match_tuple` set:
a map whose `field_to_match` is a list starting with a map that has a string
`type` and, if the key is there, a string `data`, and whose
`text_transformation` is a string. -/
def IsSetElement (v : GoValue) : Prop :=
  ∃ m ftm rest ty tt,
    v = GoValue.map m ∧
    m.lookup "field_to_match" = some (GoValue.list (GoValue.map ftm :: rest)) ∧
    m.lookup "text_transformation" = some (GoValue.str tt) ∧
    ftm.lookup "type" = some (GoValue.str ty) ∧
    (ftm.lookup "data" = none ∨ ∃ d, ftm.lookup "data" = some (GoValue.str d))

/-- The untyped set element that a typed record stands for. -/
def TupleMap.toAny (r : TupleMap) : GoValue :=
  GoValue.map
    [("field_to_match",
        GoValue.list
          [GoValue.map
            ((match r.field_to_match.data with
              | some d => [("data", GoValue.str d)]
              | none => []) ++ [("type", GoValue.str r.field_to_match.type)])]),
      ("text_transformation", GoValue.str r.text_transformation)]

/-! ## Errors, the token retryer and the mutations -/

/-- The service exception types the code tests for with `errs.IsA`, and any
other remote failure. -/
inductive ErrorKind where
  | WAFStaleDataException
  | WAFNonexistentItemException
  | WAFNonexistentContainerException
  | Other
deriving DecidableEq, Repr

/-- An error returned by a call to the service. -/
structure RemoteError where
  kind : ErrorKind
  message : String
deriving DecidableEq, Repr

/-- A Go `error`: a remote error, the retryer's own error for a spent retry
budget, or an error wrapped by `fmt.Errorf` with `%w`. -/
inductive GoError where
  | remote (e : RemoteError)
  | contentionExhausted
  | wrap (text : String) (inner : GoError)
deriving DecidableEq, Repr

/-- `errs.IsA` for a service exception type: it looks through wrapping. -/
def GoError.IsA : GoError → ErrorKind → Bool
  | GoError.remote e, k => decide (e.kind = k)
  | GoError.contentionExhausted, _ => false
  | GoError.wrap _ inner, k => inner.IsA k

/-- The text of `err.Error()`. -/
def GoError.Error : GoError → String
  | GoError.remote e => e.message
  | GoError.contentionExhausted => "too much contention: retry budget exhausted"
  | GoError.wrap text inner => text ++ inner.Error

/-- What a call through the retryer leaves behind: the result (`none` when the
closure panicked, else the returned `error`, `nil` being `none`), the number of
token fetches performed, and the final state of the closure. -/
structure RetryOutcome (σ : Type) where
  result : Option (Option GoError)
  fetches : Nat
  state : σ

/-- Modelled from the spec: `newRetryer(...).RetryWithToken` is not among the
sources.  The broker acquires a fresh token and invokes the closure once with
it; a token conflict (and a failed token fetch) makes it repeat the whole cycle
up to a fixed attempt budget; every other error is propagated at once;
a spent budget gives the contention-exhausted error.  `remaining` is the budget
left, `attempt` the number of fetches made so far, `st` the closure's state. -/
def RetryWithToken {σ : Type} (GetChangeToken : Nat → Option String)
    (f : σ → String → Option (Option GoError × σ)) : Nat → Nat → σ → RetryOutcome σ
  | 0, attempt, st =>
    { result := some (some GoError.contentionExhausted), fetches := attempt, state := st }
  | remaining + 1, attempt, st =>
    match GetChangeToken attempt with
    | none => RetryWithToken GetChangeToken f remaining (attempt + 1) st
    | some token =>
      match f st token with
      | none => { result := none, fetches := attempt + 1, state := st }
      | some (none, st') => { result := some none, fetches := attempt + 1, state := st' }
      | some (some err, st') =>
        if err.IsA ErrorKind.WAFStaleDataException then
          RetryWithToken GetChangeToken f remaining (attempt + 1) st'
        else { result := some (some err), fetches := attempt + 1, state := st' }

/-- `wafregional.UpdateSqlInjectionMatchSetInput`. -/
structure UpdateSqlInjectionMatchSetInput where
  ChangeToken : String
  SqlInjectionMatchSetId : String
  Updates : List SqlInjectionMatchSetUpdate
deriving DecidableEq, Repr

/-- `wafregional.DeleteSqlInjectionMatchSetInput`. -/
structure DeleteSqlInjectionMatchSetInput where
  ChangeToken : String
  SqlInjectionMatchSetId : String
deriving DecidableEq, Repr

/-- The service as the code sees it.  The n-th token fetch of a retryer call
gives a token or fails; a mutation answers with `nil` or an error, which may
depend on the requests of the same kind received before. -/
structure Conn where
  GetChangeToken : Nat → Option String
  UpdateSqlInjectionMatchSet :
    List UpdateSqlInjectionMatchSetInput → UpdateSqlInjectionMatchSetInput → Option RemoteError
  DeleteSqlInjectionMatchSet :
    List DeleteSqlInjectionMatchSetInput → DeleteSqlInjectionMatchSetInput → Option RemoteError

/-- State of the closure of `updateSQLInjectionMatchSet`: the cells of the
captured slice `newT` and the requests issued so far. -/
structure UpdateClosureState where
  newT : List (Option TupleMap)
  requests : List UpdateSqlInjectionMatchSetInput
deriving DecidableEq, Repr

/-- The closure handed to the retryer by `updateSQLInjectionMatchSet`: it
evaluates the diff on the captured slices, builds the input with the supplied
token and issues one `UpdateSqlInjectionMatchSet` request.  A panic of the
diff is `none`. -/
def updateClosure (hashcode : String → Int) (conn : Conn) (id : String) (oldT : List TupleMap)
    (st : UpdateClosureState) (token : String) : Option (Option GoError × UpdateClosureState) :=
  match diffSQLInjectionMatchTuplesWRCells hashcode oldT st.newT with
  | none => none
  | some (updates, cells) =>
    let input : UpdateSqlInjectionMatchSetInput :=
      { ChangeToken := token, SqlInjectionMatchSetId := id, Updates := updates }
    some ((conn.UpdateSqlInjectionMatchSet st.requests input).map GoError.remote,
      { newT := cells, requests := st.requests ++ [input] })

/-- The run of the retryer inside `updateSQLInjectionMatchSet`; `maxAttempts`
is the retryer's attempt budget. -/
def updateRetry (hashcode : String → Int) (maxAttempts : Nat) (conn : Conn) (id : String)
    (oldT newT : List TupleMap) : RetryOutcome UpdateClosureState :=
  RetryWithToken conn.GetChangeToken (updateClosure hashcode conn id oldT) maxAttempts 0
    { newT := newT.map some, requests := [] }

/-- The error wrapping of `updateSQLInjectionMatchSet`. -/
def updateErrorf (id : String) (err : GoError) : GoError :=
  GoError.wrap ("updating WAF Regional SQL Injection Match Set (" ++ id ++ "): ") err

/-- `updateSQLInjectionMatchSet`: the returned `error` (`none` outside when the
closure panicked; `some none` is `nil`). -/
def updateSQLInjectionMatchSet (hashcode : String → Int) (maxAttempts : Nat) (conn : Conn)
    (id : String) (oldT newT : List TupleMap) : Option (Option GoError) :=
  match (updateRetry hashcode maxAttempts conn id oldT newT).result with
  | none => none
  | some (some err) => some (some (updateErrorf id err))
  | some none => some none

/-- The closure handed to the retryer by `resourceSQLInjectionMatchSetDelete`;
its state is the list of requests issued so far. -/
def deleteClosure (conn : Conn) (id : String) (st : List DeleteSqlInjectionMatchSetInput)
    (token : String) : Option (Option GoError × List DeleteSqlInjectionMatchSetInput) :=
  let input : DeleteSqlInjectionMatchSetInput :=
    { ChangeToken := token, SqlInjectionMatchSetId := id }
  some ((conn.DeleteSqlInjectionMatchSet st input).map GoError.remote, st ++ [input])

/-- The error of the tuple reconciliation step of
`resourceSQLInjectionMatchSetDelete`: the step runs only when the recorded
tuple set is non-empty. -/
def deleteReconcileStep (hashcode : String → Int) (maxAttempts : Nat) (conn : Conn)
    (id : String) (oldTuples : List TupleMap) : Option (Option GoError) :=
  if oldTuples.length > 0 then
    updateSQLInjectionMatchSet hashcode maxAttempts conn id oldTuples []
  else some none

/-- The error of the `DeleteSqlInjectionMatchSet` step of
`resourceSQLInjectionMatchSetDelete`. -/
def deleteCallStep (maxAttempts : Nat) (conn : Conn) (id : String) : Option (Option GoError) :=
  (RetryWithToken conn.GetChangeToken (deleteClosure conn id) maxAttempts 0 []).result

/-- `resourceSQLInjectionMatchSetDelete`: the error diagnostics it returns
(`none` when a closure panicked). -/
def resourceSQLInjectionMatchSetDelete (hashcode : String → Int) (maxAttempts : Nat)
    (conn : Conn) (id : String) (oldTuples : List TupleMap) : Option (List String) :=
  match deleteReconcileStep hashcode maxAttempts conn id oldTuples with
  | none => none
  | some updateErr =>
    match updateErr.filter (fun err =>
        !err.IsA ErrorKind.WAFNonexistentItemException &&
          !err.IsA ErrorKind.WAFNonexistentContainerException) with
    | some err => some [err.Error]
    | none =>
      match deleteCallStep maxAttempts conn id with
      | none => none
      | some none => some []
      | some (some err) =>
        if err.IsA ErrorKind.WAFNonexistentItemException then some []
        else some ["deleting WAF Regional SQL Injection Match Set (" ++ id ++ "): " ++ err.Error]

/-- The step returned `nil`, or an error of one of the exception types that
`resourceSQLInjectionMatchSetDelete` lets pass. -/
def passesDelete (kinds : List ErrorKind) (r : Option GoError) : Bool :=
  match r with
  | none => true
  | some err => kinds.any (fun k => err.IsA k)

/-! ## Counting operations -/

/-- The number of records of `l` that have the Record Identity of `r`. -/
def identityCount (hashcode : String → Int) (r : TupleMap) (l : List TupleMap) : Nat :=
  l.countP (fun x => decide (sameIdentity hashcode r x))

/-- The number of operations with the given action that carry a record with the
Record Identity of `r`. -/
def operationIdentityCount (hashcode : String → Int) (action : ChangeAction) (r : TupleMap)
    (us : List SqlInjectionMatchSetUpdate) : Nat :=
  us.countP (fun u =>
    decide (u.Action = action) && decide (sameIdentity hashcode r (carriedRecord u)))

/-! ## The delete with the calls it makes -/

/-- What a run of `resourceSQLInjectionMatchSetDelete` consists of: the error
diagnostics it returns, the calls of `updateSQLInjectionMatchSet` it makes
(each with its `oldT` and `newT`), and the requests the service receives, in
order. -/
structure DeleteRun where
  diags : List String
  reconciliations : List (List TupleMap × List TupleMap)
  updateRequests : List UpdateSqlInjectionMatchSetInput
  deleteRequests : List DeleteSqlInjectionMatchSetInput
deriving DecidableEq, Repr

/-- The tuple reconciliation step of `resourceSQLInjectionMatchSetDelete`
with what it does: when `len(oldTuples) > 0` it calls
`updateSQLInjectionMatchSet(..., oldTuples, noTuples)` with `noTuples` empty.
The components are the error of the step, the calls of
`updateSQLInjectionMatchSet` made, and the requests that call issued. -/
def deleteReconcileRun (hashcode : String → Int) (maxAttempts : Nat) (conn : Conn)
    (id : String) (oldTuples : List TupleMap) :
    Option (Option GoError) × List (List TupleMap × List TupleMap) ×
      List UpdateSqlInjectionMatchSetInput :=
  if oldTuples.length > 0 then
    let noTuples : List TupleMap := []
    (updateSQLInjectionMatchSet hashcode maxAttempts conn id oldTuples noTuples,
      [(oldTuples, noTuples)],
      (updateRetry hashcode maxAttempts conn id oldTuples noTuples).state.requests)
  else (some none, [], [])

/-- `resourceSQLInjectionMatchSetDelete` with what it does: the diagnostics
it returns together with the reconciliation calls and the requests of the run
(`none` when a closure panicked).  A reconciliation error other than the two
not-found kinds ends the run before the delete request. -/
def resourceSQLInjectionMatchSetDeleteRun (hashcode : String → Int) (maxAttempts : Nat)
    (conn : Conn) (id : String) (oldTuples : List TupleMap) : Option DeleteRun :=
  let reconcile := deleteReconcileRun hashcode maxAttempts conn id oldTuples
  match reconcile.1 with
  | none => none
  | some updateErr =>
    match updateErr.filter (fun err =>
        !err.IsA ErrorKind.WAFNonexistentItemException &&
          !err.IsA ErrorKind.WAFNonexistentContainerException) with
    | some err =>
      some { diags := [err.Error], reconciliations := reconcile.2.1,
             updateRequests := reconcile.2.2, deleteRequests := [] }
    | none =>
      let call := RetryWithToken conn.GetChangeToken (deleteClosure conn id) maxAttempts 0 []
      match call.result with
      | none => none
      | some none =>
        some { diags := [], reconciliations := reconcile.2.1,
               updateRequests := reconcile.2.2, deleteRequests := call.state }
      | some (some err) =>
        some { diags :=
                 if err.IsA ErrorKind.WAFNonexistentItemException then []
                 else ["deleting WAF Regional SQL Injection Match Set (" ++ id ++ "): " ++
                   err.Error]
               reconciliations := reconcile.2.1
               updateRequests := reconcile.2.2, deleteRequests := call.state }

/-! ### Sample services -/

/-- A service whose `UpdateSqlInjectionMatchSet` always answers with the given
error and whose other calls succeed. -/
def connUpdateFails (e : RemoteError) : Conn :=
  { GetChangeToken := fun n => some ("token-" ++ toString n)
    UpdateSqlInjectionMatchSet := fun _ _ => some e
    DeleteSqlInjectionMatchSet := fun _ _ => none }

/-- A service whose `DeleteSqlInjectionMatchSet` always answers with the given
error and whose other calls succeed. -/
def connDeleteFails (e : RemoteError) : Conn :=
  { GetChangeToken := fun n => some ("token-" ++ toString n)
    UpdateSqlInjectionMatchSet := fun _ _ => none
    DeleteSqlInjectionMatchSet := fun _ _ => some e }

/-- The token-conflict error of the service. -/
def staleData : RemoteError :=
  { kind := ErrorKind.WAFStaleDataException, message := "WAFStaleDataException" }

/-- The not-found error of the service. -/
def nonexistentItem : RemoteError :=
  { kind := ErrorKind.WAFNonexistentItemException, message := "WAFNonexistentItemException" }

/-- Some other failure of the service. -/
def accessDenied : RemoteError :=
  { kind := ErrorKind.Other, message := "AccessDeniedException" }

end WAFRegional

/-!
# FIS experiment template: target expansion

A shallow embedding of the target handling of
`internal/service/fis/experiment_template.go`.
-/

namespace FIS

/-- A Go `map[string]α` as the list of its entries; keys are unique. -/
abbrev GoMap (α : Type) := List (String × α)

/-- The assignment `m[k] = v`. -/
def GoMap.set {α : Type} (m : GoMap α) (k : String) (v : α) : GoMap α :=
  m.filter (fun e => e.1 != k) ++ [(k, v)]

/-- The index expression `m[k]` of a string-valued map: the zero value `""` for
an absent key. -/
def GoMap.get (m : GoMap String) (k : String) : String :=
  (m.lookup k).getD ""

/-- One element of a target's `filter` list. -/
structure FilterMap where
  path : String
  values : List String
deriving DecidableEq, Repr

/-- One element of the `target` set.  `resource_arns` is the list of the
strings of that set; an element of `resource_tag` is a map of strings. -/
structure TargetMap where
  filter : List FilterMap
  name : String
  parameters : GoMap String
  resource_arns : List String
  resource_tag : List (GoMap String)
  resource_type : String
  selection_mode : String
deriving DecidableEq, Repr

/-- `awstypes.ExperimentTemplateTargetInputFilter`. -/
structure ExperimentTemplateTargetInputFilter where
  Path : Option String
  Values : Option (List String)
deriving DecidableEq, Repr

/-- `awstypes.CreateExperimentTemplateTargetInput`; an unset field is `none`. -/
structure CreateExperimentTemplateTargetInput where
  Filters : Option (List ExperimentTemplateTargetInputFilter)
  Parameters : Option (GoMap String)
  ResourceArns : Option (List String)
  ResourceTags : Option (GoMap String)
  ResourceType : Option String
  SelectionMode : Option String
deriving DecidableEq, Repr

/-- `awstypes.UpdateExperimentTemplateTargetInput`; an unset field is `none`. -/
structure UpdateExperimentTemplateTargetInput where
  Filters : Option (List ExperimentTemplateTargetInputFilter)
  Parameters : Option (GoMap String)
  ResourceArns : Option (List String)
  ResourceTags : Option (GoMap String)
  ResourceType : Option String
  SelectionMode : Option String
deriving DecidableEq, Repr

/-- Modelled from the spec: `flex.ExpandStringValueSet` is not among the
sources; the expansion is a one-to-one copy of the strings of the set. -/
def ExpandStringValueSet (v : List String) : List String := v

/-- Modelled from the spec: `flex.ExpandStringValueMap` is not among the
sources; the expansion is a one-to-one copy of the entries of the map. -/
def ExpandStringValueMap (v : GoMap String) : GoMap String := v

/-- `expandExperimentTemplateTargetFilters`; the list holds no nil element. -/
def expandExperimentTemplateTargetFilters (l : List FilterMap) :
    Option (List ExperimentTemplateTargetInputFilter) :=
  if l.length = 0 then none
  else
    some (l.map (fun raw =>
      { Path := if raw.path != "" then some raw.path else none
        Values := if raw.values.length > 0 then some (ExpandStringValueSet raw.values)
          else none }))

/-- `expandExperimentTemplateTargetResourceTags`. -/
def expandExperimentTemplateTargetResourceTags (l : List (GoMap String)) :
    Option (GoMap String) :=
  if l.length = 0 then none
  else
    some (l.foldl (fun attrs m =>
      if m.length > 0 then
        let attr := ExpandStringValueMap m
        GoMap.set attrs (attr.get "key") (attr.get "value")
      else attrs) [])

/-- The error of the mutual-exclusion check. -/
def errOnlyOne : String :=
  "Only one of resource_arns, resource_tag can be set in a target block"

/-- The body of the loop of `expandExperimentTemplateTargets` for one element:
the configuration built from it, or the error. -/
def expandCreateTarget (raw : TargetMap) : Except String CreateExperimentTemplateTargetInput :=
  let config : CreateExperimentTemplateTargetInput :=
    { Filters := none, Parameters := none, ResourceArns := none, ResourceTags := none,
      ResourceType := none, SelectionMode := none }
  let config := if raw.filter.length > 0 then
      { config with Filters := expandExperimentTemplateTargetFilters raw.filter }
    else config
  let hasSeenResourceArns := decide (raw.resource_arns.length > 0)
  let config := if raw.resource_arns.length > 0 then
      { config with ResourceArns := some (ExpandStringValueSet raw.resource_arns) }
    else config
  if raw.resource_tag.length > 0 ∧ hasSeenResourceArns = true then Except.error errOnlyOne
  else
    let config := if raw.resource_tag.length > 0 then
        { config with ResourceTags := expandExperimentTemplateTargetResourceTags raw.resource_tag }
      else config
    let config := if raw.resource_type != "" then
        { config with ResourceType := some raw.resource_type }
      else config
    let config := if raw.selection_mode != "" then
        { config with SelectionMode := some raw.selection_mode }
      else config
    let config := if raw.parameters.length > 0 then
        { config with Parameters := some (ExpandStringValueMap raw.parameters) }
      else config
    Except.ok config

/-- The loop of `expandExperimentTemplateTargets` over `l.List()`, from the map
`attrs` built so far: the returned pair `(map, error)`, a nil map being
`none`. -/
def expandCreateLoop :
    List TargetMap → GoMap CreateExperimentTemplateTargetInput →
      Option (GoMap CreateExperimentTemplateTargetInput) × Option String
  | [], attrs => (some attrs, none)
  | raw :: rest, attrs =>
    match expandCreateTarget raw with
    | Except.error err => (none, some err)
    | Except.ok config =>
      expandCreateLoop rest (if raw.name != "" then GoMap.set attrs raw.name config else attrs)

/-- `expandExperimentTemplateTargets`: the pair `(map, error)`.  The argument
is `l.List()`. -/
def expandExperimentTemplateTargets (l : List TargetMap) :
    Option (GoMap CreateExperimentTemplateTargetInput) × Option String :=
  if l.length = 0 then (some [], none)
  else expandCreateLoop l []

/-- The body of the loop of `expandExperimentTemplateTargetsForUpdate` for one
element. -/
def expandUpdateTarget (raw : TargetMap) : Except String UpdateExperimentTemplateTargetInput :=
  let config : UpdateExperimentTemplateTargetInput :=
    { Filters := none, Parameters := none, ResourceArns := none, ResourceTags := none,
      ResourceType := none, SelectionMode := none }
  let config := if raw.filter.length > 0 then
      { config with Filters := expandExperimentTemplateTargetFilters raw.filter }
    else config
  let hasSeenResourceArns := decide (raw.resource_arns.length > 0)
  let config := if raw.resource_arns.length > 0 then
      { config with ResourceArns := some (ExpandStringValueSet raw.resource_arns) }
    else config
  if raw.resource_tag.length > 0 ∧ hasSeenResourceArns = true then Except.error errOnlyOne
  else
    let config := if raw.resource_tag.length > 0 then
        { config with ResourceTags := expandExperimentTemplateTargetResourceTags raw.resource_tag }
      else config
    let config := if raw.resource_type != "" then
        { config with ResourceType := some raw.resource_type }
      else config
    let config := if raw.selection_mode != "" then
        { config with SelectionMode := some raw.selection_mode }
      else config
    let config := if raw.parameters.length > 0 then
        { config with Parameters := some (ExpandStringValueMap raw.parameters) }
      else config
    Except.ok config

/-- The loop of `expandExperimentTemplateTargetsForUpdate`. -/
def expandUpdateLoop :
    List TargetMap → GoMap UpdateExperimentTemplateTargetInput →
      Option (GoMap UpdateExperimentTemplateTargetInput) × Option String
  | [], attrs => (some attrs, none)
  | raw :: rest, attrs =>
    match expandUpdateTarget raw with
    | Except.error err => (none, some err)
    | Except.ok config =>
      expandUpdateLoop rest (if raw.name != "" then GoMap.set attrs raw.name config else attrs)

/-- `expandExperimentTemplateTargetsForUpdate`: the pair `(map, error)`. -/
def expandExperimentTemplateTargetsForUpdate (l : List TargetMap) :
    Option (GoMap UpdateExperimentTemplateTargetInput) × Option String :=
  if l.length = 0 then (none, none)
  else expandUpdateLoop l []

/-- The update input with the same six fields as a create input. -/
def CreateExperimentTemplateTargetInput.toUpdate (c : CreateExperimentTemplateTargetInput) :
    UpdateExperimentTemplateTargetInput :=
  { Filters := c.Filters, Parameters := c.Parameters, ResourceArns := c.ResourceArns,
    ResourceTags := c.ResourceTags, ResourceType := c.ResourceType,
    SelectionMode := c.SelectionMode }

/-- The keys of a map. -/
def GoMap.keys {α : Type} (m : GoMap α) : List String := m.map Prod.fst

/-- `flattenExperimentTemplateTargetResourceTags`: one map with the entries
`key` and `value` per entry of the configured map, in the order of the
iteration. -/
def flattenExperimentTemplateTargetResourceTags (configured : GoMap String) :
    List (GoMap String) :=
  configured.map (fun e => GoMap.set (GoMap.set [] "key" e.1) "value" e.2)

/-- `expandExperimentTemplateActionTargets`.  An element of the list is a map
or nil (`none`); the assertion `m.(map[string]any)` panics on a nil element,
which is the outer `none`; a nil result map is `some none`. -/
def expandExperimentTemplateActionTargets (l : List (Option (GoMap String))) :
    Option (Option (GoMap String)) :=
  match l with
  | [] => some none
  | none :: _ => some none
  | some first :: _ =>
    (l.foldlM (fun (attrs : GoMap String) (m : Option (GoMap String)) =>
      match m with
      | none => none
      | some m =>
        if m.length > 0 then
          let attr := ExpandStringValueMap first
          some (GoMap.set attrs (attr.get "key") (attr.get "value"))
        else some attrs) []).map some

/-! ## The validator of the report durations -/

/-- One character position of a regular expression: a literal character, `\d`,
or a bracket expression given by the characters it lists. -/
inductive RxAtom where
  | char (c : Char)
  | digit
  | oneOf (cs : List Char)
deriving DecidableEq, Repr

/-- An atom, possibly followed by `+`. -/
structure RxItem where
  atom : RxAtom
  plus : Bool
deriving DecidableEq, Repr

/-- The atom matches the character; `\d` is an ASCII digit. -/
def RxAtom.accepts : RxAtom → Char → Bool
  | RxAtom.char c, x => x == c
  | RxAtom.digit, x => x.isDigit
  | RxAtom.oneOf cs, x => cs.contains x

/-- The whole text matches the sequence of items (the expression is anchored
with `^` and `$`). -/
def matchItems : List RxItem → List Char → Bool
  | [], s => s.isEmpty
  | _ :: _, [] => false
  | it :: rest, c :: s =>
    it.atom.accepts c &&
      (if it.plus then matchItems (it :: rest) s || matchItems rest s else matchItems rest s)

/-- The expression `^PT\d+[M|H|S]$` of `post_experiment_duration` and
`pre_experiment_duration`: the bracket expression lists the characters `M`,
`|`, `H`, `|`, `S`. -/
def reportDurationPattern : List RxItem :=
  [{ atom := RxAtom.char 'P', plus := false },
   { atom := RxAtom.char 'T', plus := false },
   { atom := RxAtom.digit, plus := true },
   { atom := RxAtom.oneOf ['M', '|', 'H', '|', 'S'], plus := false }]

/-- `validation.StringMatch(regexache.MustCompile(...), "must be in the format
of PT10S")` on a string: `none` when the value is accepted, else the message of
the rejection. -/
def validateReportDuration (v : String) : Option String :=
  if matchItems reportDurationPattern v.data then none
  else some "must be in the format of PT10S"

/-- The documented format: "PT", one or more decimal digits, then exactly one
of the unit letters `M`, `H`, `S`. -/
def IsReportDuration (v : String) : Prop :=
  ∃ (digits : List Char) (unit : Char),
    v.data = 'P' :: 'T' :: (digits ++ [unit]) ∧ digits ≠ [] ∧
      (∀ d ∈ digits, d.isDigit = true) ∧ unit ∈ ['M', 'H', 'S']

/-! ## Create and update of the experiment template -/

/-- The part of `fis.CreateExperimentTemplateInput` that depends on the
targets. -/
structure CreateExperimentTemplateInput where
  Targets : Option (GoMap CreateExperimentTemplateTargetInput)
deriving DecidableEq, Repr

/-- The part of `fis.UpdateExperimentTemplateInput` that depends on the
targets, and the template id. -/
structure UpdateExperimentTemplateInput where
  Id : String
  Targets : Option (GoMap UpdateExperimentTemplateTargetInput)
deriving DecidableEq, Repr

/-- A call to the FIS service. -/
inductive RemoteCall where
  | CreateExperimentTemplate (input : CreateExperimentTemplateInput)
  | UpdateExperimentTemplate (input : UpdateExperimentTemplateInput)
  | GetExperimentTemplate (id : String)
deriving DecidableEq, Repr

/-- The FIS service as the code sees it: the create call answers with the new
id or an error, the update call with `nil` or an error, and the read that ends
both operations (`resourceExperimentTemplateRead`) gives its diagnostics. -/
structure Service where
  CreateExperimentTemplate : CreateExperimentTemplateInput → Except String String
  UpdateExperimentTemplate : UpdateExperimentTemplateInput → Option String
  Read : String → List String

/-- The parts of the resource data the two operations read. -/
structure ResourceData where
  id : String
  target : List TargetMap
  hasChangesExceptTags : Bool
  hasChangeTarget : Bool
deriving DecidableEq, Repr

/-- The error diagnostics an operation returns and the service calls it
issued, in order. -/
structure Run where
  diags : List String
  calls : List RemoteCall
deriving DecidableEq, Repr

/-- `resourceExperimentTemplateRead` as the tail of create and update: one
`GetExperimentTemplate` call, then the diagnostics of the read. -/
def resourceExperimentTemplateRead (svc : Service) (id : String) (calls : List RemoteCall) : Run :=
  { diags := svc.Read id, calls := calls ++ [RemoteCall.GetExperimentTemplate id] }

/-- `resourceExperimentTemplateCreate`, as far as the targets and the service
calls go. -/
def resourceExperimentTemplateCreate (svc : Service) (d : ResourceData) : Run :=
  match expandExperimentTemplateTargets d.target with
  | (_, some err) => { diags := [err], calls := [] }
  | (targets, none) =>
    let input : CreateExperimentTemplateInput := { Targets := targets }
    match svc.CreateExperimentTemplate input with
    | Except.error err =>
      { diags := ["creating FIS Experiment Template: " ++ err]
        calls := [RemoteCall.CreateExperimentTemplate input] }
    | Except.ok id =>
      resourceExperimentTemplateRead svc id [RemoteCall.CreateExperimentTemplate input]

/-- The request `resourceExperimentTemplateUpdate` builds when something other
than tags changed: the targets are set only when the target attribute changed.
An error of the expansion is the `Except.error`. -/
def updateInput (d : ResourceData) : Except String UpdateExperimentTemplateInput :=
  let input : UpdateExperimentTemplateInput := { Id := d.id, Targets := none }
  if d.hasChangeTarget then
    match expandExperimentTemplateTargetsForUpdate d.target with
    | (_, some err) => Except.error err
    | (targets, none) => Except.ok { input with Targets := targets }
  else Except.ok input

/-- `resourceExperimentTemplateUpdate`, as far as the targets and the service
calls go. -/
def resourceExperimentTemplateUpdate (svc : Service) (d : ResourceData) : Run :=
  if d.hasChangesExceptTags then
    match updateInput d with
    | Except.error err => { diags := [err], calls := [] }
    | Except.ok input =>
      match svc.UpdateExperimentTemplate input with
      | some err =>
        { diags := ["updating FIS Experiment Template (" ++ d.id ++ "): " ++ err]
          calls := [RemoteCall.UpdateExperimentTemplate input] }
      | none =>
        resourceExperimentTemplateRead svc d.id [RemoteCall.UpdateExperimentTemplate input]
  else resourceExperimentTemplateRead svc d.id []

/-! ### Sample targets -/

/-- A target selected by resource ARN. -/
def targetByArn : TargetMap :=
  { filter := [], name := "by-arn", parameters := [],
    resource_arns := ["arn:aws:ec2:us-east-1:123456789012:instance/i-0"],
    resource_tag := [], resource_type := "aws:ec2:instance", selection_mode := "ALL" }

/-- A target selected by resource tag. -/
def targetByTag : TargetMap :=
  { filter := [], name := "by-tag", parameters := [],
    resource_arns := [],
    resource_tag := [[("key", "env"), ("value", "test")]],
    resource_type := "aws:ec2:instance", selection_mode := "ALL" }

/-- A target with both a resource ARN and a resource tag. -/
def targetBoth : TargetMap :=
  { filter := [], name := "both", parameters := [],
    resource_arns := ["arn:aws:ec2:us-east-1:123456789012:instance/i-0"],
    resource_tag := [[("key", "env"), ("value", "test")]],
    resource_type := "aws:ec2:instance", selection_mode := "ALL" }

/-- A service on which every call succeeds. -/
def serviceOk : Service :=
  { CreateExperimentTemplate := fun _ => Except.ok "EXT123"
    UpdateExperimentTemplate := fun _ => none
    Read := fun _ => [] }

end FIS

/-!
# App Runner: hosted zone id data source

A shallow embedding of
`internal/service/apprunner/hosted_zone_id_data_source.go`.
-/

namespace AppRunner

/-- The region ids of the `endpoints` package of `aws-sdk-go-base` that the
table uses. -/
def UsEast2RegionID : String := "us-east-2"

/-- Region id `us-east-1`. -/
def UsEast1RegionID : String := "us-east-1"

/-- Region id `us-west-2`. -/
def UsWest2RegionID : String := "us-west-2"

/-- Region id `ap-south-1`. -/
def ApSouth1RegionID : String := "ap-south-1"

/-- Region id `ap-southeast-1`. -/
def ApSoutheast1RegionID : String := "ap-southeast-1"

/-- Region id `ap-southeast-2`. -/
def ApSoutheast2RegionID : String := "ap-southeast-2"

/-- Region id `ap-northeast-1`. -/
def ApNortheast1RegionID : String := "ap-northeast-1"

/-- Region id `eu-central-1`. -/
def EuCentral1RegionID : String := "eu-central-1"

/-- Region id `eu-west-1`. -/
def EuWest1RegionID : String := "eu-west-1"

/-- Region id `eu-west-2`. -/
def EuWest2RegionID : String := "eu-west-2"

/-- Region id `eu-west-3`. -/
def EuWest3RegionID : String := "eu-west-3"

/-- `hostedZoneIDPerRegionMap`, as the list of its entries. -/
def hostedZoneIDPerRegionMap : List (String × String) :=
  [(UsEast2RegionID, "Z0224347AD7KVHMLOX31"),
   (UsEast1RegionID, "Z01915732ZBZKC8D32TPT"),
   (UsWest2RegionID, "Z02243383FTQ64HJ5772Q"),
   (ApSouth1RegionID, "Z00855883LBHKTIC4ODF2"),
   (ApSoutheast1RegionID, "Z09819469CZ3KQ8PWMCL"),
   (ApSoutheast2RegionID, "Z03657752RA8799S0TI5I"),
   (ApNortheast1RegionID, "Z08491812XW6IPYLR6CCA"),
   (EuCentral1RegionID, "Z0334911C2FDI2Q9M4FZ"),
   (EuWest1RegionID, "Z087551914Z2PCAU0QHMW"),
   (EuWest2RegionID, "Z098228427VC6B3IX76ON"),
   (EuWest3RegionID, "Z087117439MBKHYM69QS6")]

/-- `hostedZoneIDDataSourceModel`: the region of `framework.WithRegionModel`
and the id. -/
structure hostedZoneIDDataSourceModel where
  Region : String
  ID : String
deriving DecidableEq, Repr

/-- An error diagnostic: summary and detail. -/
structure Diagnostic where
  summary : String
  detail : String
deriving DecidableEq, Repr

/-- The part of `datasource.ReadResponse` that `Read` fills: the error
diagnostics and the state, `none` while no state was written. -/
structure ReadResponse where
  Diagnostics : List Diagnostic
  State : Option hostedZoneIDDataSourceModel
deriving DecidableEq, Repr

/-- `hostedZoneIDDataSource.Read`.  `configDiags` are the error diagnostics of
`request.Config.Get`, `region` is `d.Meta().Region(ctx)`; writing the state
adds no diagnostics. -/
def Read (configDiags : List Diagnostic) (region : String) : ReadResponse :=
  if configDiags.length > 0 then { Diagnostics := configDiags, State := none }
  else
    match hostedZoneIDPerRegionMap.lookup region with
    | some zoneID =>
      { Diagnostics := configDiags, State := some { Region := region, ID := zoneID } }
    | none =>
      { Diagnostics := configDiags ++
          [{ summary := "unsupported AWS Region"
             detail := "region " ++ region ++ " is currently not supported" }]
        State := none }

end AppRunner

namespace WAFRegional

/-! ## Lemmas on the helper and the loops -/

theorem sameIdentity_refl (hashcode : String → Int) (a : TupleMap) :
    sameIdentity hashcode a a := rfl

theorem sameIdentity_symm {hashcode : String → Int} {a b : TupleMap}
    (h : sameIdentity hashcode a b) : sameIdentity hashcode b a := Eq.symm h

theorem sameIdentity_trans {hashcode : String → Int} {a b c : TupleMap}
    (h₁ : sameIdentity hashcode a b) (h₂ : sameIdentity hashcode b c) :
    sameIdentity hashcode a c := Eq.trans h₁ h₂

theorem hasMatch_iff (hashcode : String → Int) (l : List TupleMap) (r : TupleMap) :
    hasMatch hashcode l r = true ↔ ∃ x ∈ l, sameIdentity hashcode r x := by
  simp [hasMatch, List.any_eq_true]

theorem sliceContainsMap_none_iff (hashcode : String → Int) (l : List TupleMap) (m : TupleMap) :
    sliceContainsMap hashcode l m = none ↔ ∀ x ∈ l, ¬ sameIdentity hashcode m x := by
  induction l with
  | nil => simp [sliceContainsMap]
  | cons t l ih =>
    by_cases h : sameIdentity hashcode m t
    · simp [sliceContainsMap, h]
    · simp [sliceContainsMap, h, ih]

/-- A hit of the helper splits the list at the first identity-equal record. -/
theorem sliceContainsMap_some (hashcode : String → Int) (l : List TupleMap) (m : TupleMap)
    (idx : Nat) (h : sliceContainsMap hashcode l m = some idx) :
    ∃ l₁ d l₂, l = l₁ ++ d :: l₂ ∧ l.eraseIdx idx = l₁ ++ l₂ ∧ sameIdentity hashcode m d ∧
      (∀ x ∈ l₁, ¬ sameIdentity hashcode m x) ∧ idx = l₁.length := by
  induction l generalizing idx with
  | nil => simp [sliceContainsMap] at h
  | cons t l ih =>
    by_cases ht : sameIdentity hashcode m t
    · simp [sliceContainsMap, ht] at h
      subst h
      exact ⟨[], t, l, rfl, rfl, ht, by simp, rfl⟩
    · simp [sliceContainsMap, ht] at h
      obtain ⟨j, hj, rfl⟩ := h
      obtain ⟨l₁, d, l₂, h₁, h₂, h₃, h₄, h₅⟩ := ih j hj
      refine ⟨t :: l₁, d, l₂, by simp [h₁], by simp [h₂], h₃, ?_, by simp [h₅]⟩
      intro x hx
      rcases List.mem_cons.1 hx with rfl | hx
      · exact ht
      · exact h₄ x hx

theorem sliceContainsMap_isSome_iff (hashcode : String → Int) (l : List TupleMap) (m : TupleMap) :
    (sliceContainsMap hashcode l m).isSome = hasMatch hashcode l m := by
  cases h : sliceContainsMap hashcode l m with
  | none =>
    have := (sliceContainsMap_none_iff hashcode l m).1 h
    have h2 : hasMatch hashcode l m = false := by
      cases hm : hasMatch hashcode l m with
      | false => rfl
      | true =>
        obtain ⟨x, hx, hs⟩ := (hasMatch_iff hashcode l m).1 hm
        exact absurd hs (this x hx)
    simp [h2]
  | some idx =>
    obtain ⟨l₁, d, l₂, h₁, -, h₃, -, -⟩ := sliceContainsMap_some hashcode l m idx h
    have : hasMatch hashcode l m = true :=
      (hasMatch_iff hashcode l m).2 ⟨d, by simp [h₁], h₃⟩
    simp [this]

theorem foldl_diffStep (hashcode : String → Int) (P D : List TupleMap)
    (us : List SqlInjectionMatchSetUpdate) :
    P.foldl (diffStep hashcode) (us, D) =
      (us ++ (unmatchedOld hashcode P D).map deleteUpdate, remainingNew hashcode P D) := by
  induction P generalizing D us with
  | nil => simp [unmatchedOld, remainingNew]
  | cons p P ih =>
    rw [List.foldl_cons]
    cases h : sliceContainsMap hashcode D p with
    | none => simp [diffStep, h, ih, unmatchedOld, remainingNew]
    | some idx => simp [diffStep, h, ih, unmatchedOld, remainingNew]

theorem foldl_insert (l : List TupleMap) (us : List SqlInjectionMatchSetUpdate) :
    l.foldl (fun updates tuple => updates ++ [insertUpdate tuple]) us =
      us ++ l.map insertUpdate := by
  induction l generalizing us with
  | nil => simp
  | cons t l ih => simp [ih]

/-- The returned list is the Deletes of the unmatched previous records followed
by the Inserts of the records left in `newT`. -/
theorem diff_eq (hashcode : String → Int) (P D : List TupleMap) :
    diffSQLInjectionMatchTuplesWR hashcode P D =
      (unmatchedOld hashcode P D).map deleteUpdate ++
        (remainingNew hashcode P D).map insertUpdate := by
  simp [diffSQLInjectionMatchTuplesWR, foldl_diffStep, foldl_insert]

theorem UniqueIdentities.cons_iff {hashcode : String → Int} {p : TupleMap} {P : List TupleMap} :
    UniqueIdentities hashcode (p :: P) ↔
      (∀ x ∈ P, ¬ sameIdentity hashcode p x) ∧ UniqueIdentities hashcode P := by
  simp [UniqueIdentities, sameIdentity, List.nodup_cons]
  intro _
  constructor
  · intro h x hx heq
    exact h x hx heq.symm
  · intro h x hx heq
    exact h x hx heq.symm

theorem UniqueIdentities.nodup {hashcode : String → Int} {P : List TupleMap}
    (h : UniqueIdentities hashcode P) : P.Nodup :=
  List.Nodup.of_map _ h

theorem UniqueIdentities.sublist {hashcode : String → Int} {P Q : List TupleMap}
    (hs : List.Sublist Q P) (h : UniqueIdentities hashcode P) : UniqueIdentities hashcode Q :=
  List.Nodup.sublist (hs.map _) h

/-- In a list with unique identities, the records around an occurrence all
differ from it in identity. -/
theorem UniqueIdentities.split {hashcode : String → Int} {l₁ l₂ : List TupleMap} {d : TupleMap}
    (h : UniqueIdentities hashcode (l₁ ++ d :: l₂)) :
    ∀ x ∈ l₁ ++ l₂, ¬ sameIdentity hashcode d x := by
  have hp : List.Perm (l₁ ++ d :: l₂) (d :: (l₁ ++ l₂)) := List.perm_middle
  have h2 : UniqueIdentities hashcode (d :: (l₁ ++ l₂)) :=
    (List.Perm.nodup_iff (hp.map _)).1 h
  exact (UniqueIdentities.cons_iff.1 h2).1

theorem unmatchedOld_sublist (hashcode : String → Int) (P D : List TupleMap) :
    List.Sublist (unmatchedOld hashcode P D) P := by
  induction P generalizing D with
  | nil => simp [unmatchedOld]
  | cons p P ih =>
    cases h : sliceContainsMap hashcode D p with
    | none => simpa [unmatchedOld, h] using ih D
    | some idx => simpa [unmatchedOld, h] using (ih (D.eraseIdx idx)).trans (List.sublist_cons_self p P)

theorem remainingNew_sublist (hashcode : String → Int) (P D : List TupleMap) :
    List.Sublist (remainingNew hashcode P D) D := by
  induction P generalizing D with
  | nil => simp [remainingNew]
  | cons p P ih =>
    cases h : sliceContainsMap hashcode D p with
    | none => simpa [remainingNew, h] using ih D
    | some idx =>
      simpa [remainingNew, h] using (ih (D.eraseIdx idx)).trans (List.eraseIdx_sublist D idx)

/-- With unique identities in the previous list, the unmatched previous records
are those without an identity-equal record in the original desired list. -/
theorem unmatchedOld_eq_filter (hashcode : String → Int) (P D : List TupleMap)
    (hP : UniqueIdentities hashcode P) :
    unmatchedOld hashcode P D = P.filter (fun p => !hasMatch hashcode D p) := by
  induction P generalizing D with
  | nil => simp [unmatchedOld]
  | cons p P ih =>
    obtain ⟨hp, hP'⟩ := UniqueIdentities.cons_iff.1 hP
    have hsome := sliceContainsMap_isSome_iff hashcode D p
    cases h : sliceContainsMap hashcode D p with
    | none =>
      rw [h] at hsome
      simp [unmatchedOld, h, ih D hP', ← hsome]
    | some idx =>
      rw [h] at hsome
      obtain ⟨l₁, d, l₂, h₁, h₂, h₃, -, -⟩ := sliceContainsMap_some hashcode D p idx h
      have hflt : P.filter (fun q => !hasMatch hashcode (D.eraseIdx idx) q) =
          P.filter (fun q => !hasMatch hashcode D q) := by
        apply List.filter_congr
        intro q hq
        have hqd : ¬ sameIdentity hashcode q d := fun hqd =>
          hp q hq (sameIdentity_trans h₃ (sameIdentity_symm hqd))
        have : hasMatch hashcode (D.eraseIdx idx) q = hasMatch hashcode D q := by
          rw [Bool.eq_iff_iff, hasMatch_iff, hasMatch_iff, h₂, h₁]
          constructor
          · rintro ⟨x, hx, hs⟩
            refine ⟨x, ?_, hs⟩
            rcases List.mem_append.1 hx with hx | hx
            · exact List.mem_append.2 (Or.inl hx)
            · exact List.mem_append.2 (Or.inr (List.mem_cons_of_mem _ hx))
          · rintro ⟨x, hx, hs⟩
            refine ⟨x, ?_, hs⟩
            rcases List.mem_append.1 hx with hx | hx
            · exact List.mem_append.2 (Or.inl hx)
            · rcases List.mem_cons.1 hx with rfl | hx
              · exact absurd hs hqd
              · exact List.mem_append.2 (Or.inr hx)
        rw [this]
      simp [unmatchedOld, h, ih (D.eraseIdx idx) hP', hflt, ← hsome]

/-- With unique identities in the desired list, the records left in `newT` are
those without an identity-equal record in the previous list. -/
theorem remainingNew_eq_filter (hashcode : String → Int) (P D : List TupleMap)
    (hD : UniqueIdentities hashcode D) :
    remainingNew hashcode P D = D.filter (fun d => !hasMatch hashcode P d) := by
  induction P generalizing D with
  | nil => simp [remainingNew, hasMatch]
  | cons p P ih =>
    cases h : sliceContainsMap hashcode D p with
    | none =>
      have hnone := (sliceContainsMap_none_iff hashcode D p).1 h
      simp only [remainingNew, h, ih D hD]
      apply List.filter_congr
      intro x hx
      have hxp : ¬ sameIdentity hashcode x p := fun hxp => hnone x hx (sameIdentity_symm hxp)
      simp [hasMatch, hxp]
    | some idx =>
      obtain ⟨l₁, d, l₂, h₁, h₂, h₃, -, -⟩ := sliceContainsMap_some hashcode D p idx h
      have hsub : List.Sublist (D.eraseIdx idx) D := List.eraseIdx_sublist D idx
      have hsplit := UniqueIdentities.split (h₁ ▸ hD)
      simp only [remainingNew, h, ih _ (UniqueIdentities.sublist hsub hD)]
      have hcongr : ∀ x ∈ l₁ ++ l₂,
          (!hasMatch hashcode P x) = (!hasMatch hashcode (p :: P) x) := by
        intro x hx
        have hxp : ¬ sameIdentity hashcode x p := fun hxp =>
          hsplit x hx (sameIdentity_symm (sameIdentity_trans hxp h₃))
        simp [hasMatch, hxp]
      have hd : hasMatch hashcode (p :: P) d = true :=
        (hasMatch_iff _ _ _).2 ⟨p, by simp, sameIdentity_symm h₃⟩
      rw [h₂, h₁, List.filter_congr hcongr]
      simp only [List.filter_append, List.filter_cons, hd]
      simp

theorem carriedRecord_deleteUpdate (t : TupleMap) : carriedRecord (deleteUpdate t) = t := rfl

theorem carriedRecord_insertUpdate (t : TupleMap) : carriedRecord (insertUpdate t) = t := rfl

theorem deleteUpdate_injective : Function.Injective deleteUpdate := fun a b h => by
  have := congrArg carriedRecord h
  simpa [carriedRecord_deleteUpdate] using this

theorem insertUpdate_injective : Function.Injective insertUpdate := fun a b h => by
  have := congrArg carriedRecord h
  simpa [carriedRecord_insertUpdate] using this

theorem filter_delete_diff (hashcode : String → Int) (P D : List TupleMap) :
    (diffSQLInjectionMatchTuplesWR hashcode P D).filter (fun u => u.Action = ChangeAction.Delete) =
      (unmatchedOld hashcode P D).map deleteUpdate := by
  rw [diff_eq, List.filter_append]
  have h₁ : ((unmatchedOld hashcode P D).map deleteUpdate).filter
      (fun u => u.Action = ChangeAction.Delete) = (unmatchedOld hashcode P D).map deleteUpdate := by
    apply List.filter_eq_self.2
    intro u hu
    obtain ⟨t, -, rfl⟩ := List.mem_map.1 hu
    simp [deleteUpdate]
  have h₂ : ((remainingNew hashcode P D).map insertUpdate).filter
      (fun u => u.Action = ChangeAction.Delete) = [] := by
    apply List.filter_eq_nil_iff.2
    intro u hu
    obtain ⟨t, -, rfl⟩ := List.mem_map.1 hu
    simp [insertUpdate]
  rw [h₁, h₂, List.append_nil]

theorem filter_insert_diff (hashcode : String → Int) (P D : List TupleMap) :
    (diffSQLInjectionMatchTuplesWR hashcode P D).filter (fun u => u.Action = ChangeAction.Insert) =
      (remainingNew hashcode P D).map insertUpdate := by
  rw [diff_eq, List.filter_append]
  have h₁ : ((unmatchedOld hashcode P D).map deleteUpdate).filter
      (fun u => u.Action = ChangeAction.Insert) = [] := by
    apply List.filter_eq_nil_iff.2
    intro u hu
    obtain ⟨t, -, rfl⟩ := List.mem_map.1 hu
    simp [deleteUpdate]
  have h₂ : ((remainingNew hashcode P D).map insertUpdate).filter
      (fun u => u.Action = ChangeAction.Insert) = (remainingNew hashcode P D).map insertUpdate := by
    apply List.filter_eq_self.2
    intro u hu
    obtain ⟨t, -, rfl⟩ := List.mem_map.1 hu
    simp [insertUpdate]
  rw [h₁, h₂, List.nil_append]

theorem deletedRecords_diff (hashcode : String → Int) (P D : List TupleMap) :
    deletedRecords (diffSQLInjectionMatchTuplesWR hashcode P D) = unmatchedOld hashcode P D := by
  unfold deletedRecords
  rw [filter_delete_diff, List.map_map]
  have : carriedRecord ∘ deleteUpdate = id := funext carriedRecord_deleteUpdate
  rw [this, List.map_id]

theorem insertedRecords_diff (hashcode : String → Int) (P D : List TupleMap) :
    insertedRecords (diffSQLInjectionMatchTuplesWR hashcode P D) = remainingNew hashcode P D := by
  unfold insertedRecords
  rw [filter_insert_diff, List.map_map]
  have : carriedRecord ∘ insertUpdate = id := funext carriedRecord_insertUpdate
  rw [this, List.map_id]

/-- In a duplicate-free previous list, the records that are not deleted are the
matched ones. -/
theorem filter_not_unmatched (hashcode : String → Int) (P D : List TupleMap) (hP : P.Nodup) :
    P.filter (fun r => decide (r ∉ unmatchedOld hashcode P D)) = matchedOld hashcode P D := by
  induction P generalizing D with
  | nil => simp [matchedOld]
  | cons p P ih =>
    obtain ⟨hp, hP'⟩ := List.nodup_cons.1 hP
    cases h : sliceContainsMap hashcode D p with
    | none =>
      have hcongr : ∀ x ∈ P, decide (x ∉ p :: unmatchedOld hashcode P D) =
          decide (x ∉ unmatchedOld hashcode P D) := by
        intro x hx
        have : x ≠ p := fun hxp => hp (hxp ▸ hx)
        simp [this]
      simp only [unmatchedOld, matchedOld, h]
      rw [List.filter_cons]
      simp only [List.mem_cons, true_or, not_true_eq_false, decide_False, Bool.false_eq_true,
        if_false]
      rw [← ih D hP']
      apply List.filter_congr
      intro x hx
      have : x ≠ p := fun hxp => hp (hxp ▸ hx)
      simp [this]
    | some idx =>
      have hpU : p ∉ unmatchedOld hashcode P (D.eraseIdx idx) := fun hmem =>
        hp ((unmatchedOld_sublist hashcode P _).subset hmem)
      simp only [unmatchedOld, matchedOld, h]
      rw [List.filter_cons, ← ih (D.eraseIdx idx) hP']
      simp [hpU]

/-- The matched previous records and the records left in `newT` carry, between
them, exactly the identities of the desired list. -/
theorem matched_remaining_perm (hashcode : String → Int) (P D : List TupleMap) :
    List.Perm
      ((matchedOld hashcode P D ++ remainingNew hashcode P D).map
        (resourceSQLInjectionMatchSetTupleHash hashcode))
      (D.map (resourceSQLInjectionMatchSetTupleHash hashcode)) := by
  induction P generalizing D with
  | nil => simp [matchedOld, remainingNew]
  | cons p P ih =>
    cases h : sliceContainsMap hashcode D p with
    | none => simpa [matchedOld, remainingNew, h] using ih D
    | some idx =>
      obtain ⟨l₁, d, l₂, h₁, h₂, h₃, -, -⟩ := sliceContainsMap_some hashcode D p idx h
      have ih' := ih (D.eraseIdx idx)
      simp only [matchedOld, remainingNew, h, List.cons_append, List.map_cons]
      have hpd : resourceSQLInjectionMatchSetTupleHash hashcode p =
          resourceSQLInjectionMatchSetTupleHash hashcode d := h₃
      rw [hpd]
      refine (List.Perm.cons _ ih').trans ?_
      rw [h₂, h₁]
      simpa using (List.perm_middle).symm

/-- When identity-equal records of the two lists are equal, the matched records
and the records left in `newT` are, between them, exactly the desired records. -/
theorem matched_remaining_perm_eq (hashcode : String → Int) (P D : List TupleMap)
    (hinj : ∀ p ∈ P, ∀ d ∈ D, sameIdentity hashcode p d → p = d) :
    List.Perm (matchedOld hashcode P D ++ remainingNew hashcode P D) D := by
  induction P generalizing D with
  | nil => simp [matchedOld, remainingNew]
  | cons p P ih =>
    cases h : sliceContainsMap hashcode D p with
    | none =>
      simpa [matchedOld, remainingNew, h] using
        ih D (fun q hq d hd => hinj q (List.mem_cons_of_mem _ hq) d hd)
    | some idx =>
      obtain ⟨l₁, d, l₂, h₁, h₂, h₃, -, -⟩ := sliceContainsMap_some hashcode D p idx h
      have hpd : p = d := hinj p (List.mem_cons_self _ _) d (by simp [h₁]) h₃
      have ih' := ih (D.eraseIdx idx) (fun q hq x hx =>
        hinj q (List.mem_cons_of_mem _ hq) x ((List.eraseIdx_sublist D idx).subset hx))
      simp only [matchedOld, remainingNew, h, List.cons_append]
      refine (List.Perm.cons _ ih').trans ?_
      rw [h₂, hpd]
      conv_rhs => rw [h₁]
      exact (List.perm_middle).symm

theorem applyUpdates_diff (hashcode : String → Int) (P D : List TupleMap) (hP : P.Nodup) :
    applyUpdates P (diffSQLInjectionMatchTuplesWR hashcode P D) =
      matchedOld hashcode P D ++ remainingNew hashcode P D := by
  unfold applyUpdates
  rw [deletedRecords_diff, insertedRecords_diff, filter_not_unmatched hashcode P D hP]

theorem unmatchedOld_self (hashcode : String → Int) (S : List TupleMap) :
    unmatchedOld hashcode S S = [] := by
  induction S with
  | nil => rfl
  | cons s S ih => simp [unmatchedOld, sliceContainsMap, sameIdentity_refl, ih]

theorem remainingNew_self (hashcode : String → Int) (S : List TupleMap) :
    remainingNew hashcode S S = [] := by
  induction S with
  | nil => rfl
  | cons s S ih => simp [remainingNew, sliceContainsMap, sameIdentity_refl, ih]

theorem toLower_Foo : toLower "Foo" = toLower "foo" := by decide

/-- A previous record with an identity-equal desired record is neither among
the unmatched previous records nor is its partner left in `newT`, provided each
list has unique identities. -/
theorem matched_pair_absent (hashcode : String → Int) (P D : List TupleMap) (p d : TupleMap)
    (hP : UniqueIdentities hashcode P) (hD : UniqueIdentities hashcode D)
    (hp : p ∈ P) (hd : d ∈ D) (hpd : sameIdentity hashcode p d) :
    p ∉ unmatchedOld hashcode P D ∧ d ∉ remainingNew hashcode P D := by
  rw [unmatchedOld_eq_filter hashcode P D hP, remainingNew_eq_filter hashcode P D hD]
  have h₁ : hasMatch hashcode D p = true := (hasMatch_iff _ _ _).2 ⟨d, hd, hpd⟩
  have h₂ : hasMatch hashcode P d = true := (hasMatch_iff _ _ _).2 ⟨p, hp, sameIdentity_symm hpd⟩
  simp [List.mem_filter, h₁, h₂]

theorem mem_diff_iff (hashcode : String → Int) (P D : List TupleMap)
    (u : SqlInjectionMatchSetUpdate) :
    u ∈ diffSQLInjectionMatchTuplesWR hashcode P D ↔
      (∃ p ∈ unmatchedOld hashcode P D, deleteUpdate p = u) ∨
        (∃ d ∈ remainingNew hashcode P D, insertUpdate d = u) := by
  simp [diff_eq, List.mem_append, List.mem_map]

theorem abc_distinct {hashcode : String → Int} {A B C : TupleMap}
    (h : UniqueIdentities hashcode [A, B, C]) :
    ¬ sameIdentity hashcode A B ∧ ¬ sameIdentity hashcode A C ∧ ¬ sameIdentity hashcode B C := by
  simp [UniqueIdentities] at h
  obtain ⟨⟨h₁, h₂⟩, h₃⟩ := h
  exact ⟨h₁, h₂, h₃⟩

/-! ### The value view and the slice view of the diff agree -/

theorem eraseIdx_map_some (l : List TupleMap) (idx : Nat) :
    (l.map some).eraseIdx idx = (l.eraseIdx idx).map some := by
  induction l generalizing idx with
  | nil => rfl
  | cons t l ih =>
    cases idx with
    | zero => rfl
    | succ n => simp [ih]

theorem sliceContainsMapCells_map_some (hashcode : String → Int) (l : List TupleMap)
    (m : TupleMap) :
    sliceContainsMapCells hashcode (l.map some) m = some (sliceContainsMap hashcode l m) := by
  induction l with
  | nil => rfl
  | cons t l ih =>
    by_cases h : sameIdentity hashcode m t
    · simp [sliceContainsMapCells, sliceContainsMap, h]
    · simp [sliceContainsMapCells, sliceContainsMap, h, ih]

theorem insertLoopCells_map_some (l : List TupleMap) (us : List SqlInjectionMatchSetUpdate) :
    insertLoopCells (l.map some) us = some (us ++ l.map insertUpdate) := by
  induction l generalizing us with
  | nil => simp [insertLoopCells]
  | cons t l ih => simp [insertLoopCells, ih]

theorem foldlM_diffStepCells (hashcode : String → Int) (P D : List TupleMap)
    (us : List SqlInjectionMatchSetUpdate) (behind : List (Option TupleMap)) :
    P.foldlM (diffStepCells hashcode) { updates := us, newT := D.map some, behind := behind } =
      some { updates := us ++ (unmatchedOld hashcode P D).map deleteUpdate
             newT := (remainingNew hashcode P D).map some
             behind := List.replicate (matchedOld hashcode P D).length none ++ behind } := by
  induction P generalizing D us behind with
  | nil => simp [unmatchedOld, remainingNew, matchedOld]
  | cons p P ih =>
    rw [List.foldlM_cons]
    cases h : sliceContainsMap hashcode D p with
    | none =>
      simp [diffStepCells, sliceContainsMapCells_map_some, h, ih, unmatchedOld, remainingNew,
        matchedOld]
    | some idx =>
      simp [diffStepCells, sliceContainsMapCells_map_some, h, eraseIdx_map_some, ih, unmatchedOld,
        remainingNew, matchedOld, List.replicate_succ']

/-- On a slice without nil cells the call does not panic, returns the updates of
the value view, and leaves in the caller's slice the unmatched desired records
followed by one nil cell per matched record. -/
theorem diffCells_eq (hashcode : String → Int) (P D : List TupleMap) :
    diffSQLInjectionMatchTuplesWRCells hashcode P (D.map some) =
      some (diffSQLInjectionMatchTuplesWR hashcode P D,
        (remainingNew hashcode P D).map some ++
          List.replicate (matchedOld hashcode P D).length none) := by
  simp [diffSQLInjectionMatchTuplesWRCells, foldlM_diffStepCells, insertLoopCells_map_some,
    diff_eq]

/-! ### The diff with the helper as a parameter -/

/-- The diff over the helper modelled from the spec is the diff with that
helper as its parameter. -/
theorem diffWith_sliceContainsMap (hashcode : String → Int) (P D : List TupleMap) :
    diffSQLInjectionMatchTuplesWRWith (sliceContainsMap hashcode) P D =
      diffSQLInjectionMatchTuplesWR hashcode P D := rfl

theorem foldl_diffWith (contains : List TupleMap → TupleMap → Option Nat) (P D : List TupleMap)
    (us : List SqlInjectionMatchSetUpdate) :
    P.foldl
        (fun (st : List SqlInjectionMatchSetUpdate × List TupleMap) tuple =>
          match contains st.2 tuple with
          | some idx => (st.1, st.2.eraseIdx idx)
          | none => (st.1 ++ [deleteUpdate tuple], st.2))
        (us, D) =
      (us ++ (unmatchedWith contains P D).map deleteUpdate, remainingWith contains P D) := by
  induction P generalizing D us with
  | nil => simp [unmatchedWith, remainingWith]
  | cons p P ih =>
    rw [List.foldl_cons]
    cases h : contains D p with
    | none => simp [h, ih, unmatchedWith, remainingWith]
    | some idx => simp [h, ih, unmatchedWith, remainingWith]

theorem diffWith_eq (contains : List TupleMap → TupleMap → Option Nat) (P D : List TupleMap) :
    diffSQLInjectionMatchTuplesWRWith contains P D =
      (unmatchedWith contains P D).map deleteUpdate ++
        (remainingWith contains P D).map insertUpdate := by
  simp [diffSQLInjectionMatchTuplesWRWith, foldl_diffWith, foldl_insert]

/-- On lists whose records are told apart by their identity, the helper
modelled from the spec is a helper that compares the maps. -/
theorem sliceContainsMap_eq_indexOfEqual (hashcode : String → Int) (l : List TupleMap)
    (m : TupleMap) (h : ∀ x ∈ l, sameIdentity hashcode m x → m = x) :
    sliceContainsMap hashcode l m = indexOfEqual l m := by
  induction l with
  | nil => rfl
  | cons t l ih =>
    have ih' := ih (fun x hx => h x (List.mem_cons_of_mem _ hx))
    by_cases ht : sameIdentity hashcode m t
    · have he : m = t := h t (List.mem_cons_self _ _) ht
      subst he
      rw [sliceContainsMap, indexOfEqual, if_pos ht, if_pos rfl]
    · have hne : m ≠ t := fun he => ht (he ▸ sameIdentity_refl hashcode m)
      simp [sliceContainsMap, indexOfEqual, ht, hne, ih']

/-- Helpers that agree on the sublists of `D` give the same two loops. -/
theorem loops_congr (c₁ c₂ : List TupleMap → TupleMap → Option Nat) (P D : List TupleMap)
    (h : ∀ p ∈ P, ∀ l : List TupleMap, l.Sublist D → c₁ l p = c₂ l p) :
    unmatchedWith c₁ P D = unmatchedWith c₂ P D ∧
      remainingWith c₁ P D = remainingWith c₂ P D := by
  induction P generalizing D with
  | nil => exact ⟨rfl, rfl⟩
  | cons p P ih =>
    have hp : c₁ D p = c₂ D p := h p (List.mem_cons_self _ _) D (List.Sublist.refl D)
    cases hc : c₂ D p with
    | none =>
      obtain ⟨ih₁, ih₂⟩ := ih D (fun q hq l hl => h q (List.mem_cons_of_mem _ hq) l hl)
      simp only [unmatchedWith, remainingWith, hp, hc, ih₁, ih₂, and_self]
    | some idx =>
      obtain ⟨ih₁, ih₂⟩ := ih (D.eraseIdx idx)
        (fun q hq l hl => h q (List.mem_cons_of_mem _ hq) l (hl.trans (List.eraseIdx_sublist D idx)))
      simp only [unmatchedWith, remainingWith, hp, hc, ih₁, ih₂, and_self]

/-- On lists whose records are told apart by their identity, the diff over the
helper modelled from the spec is the diff over a helper that compares the
maps. -/
theorem diff_eq_diffWith_indexOfEqual (hashcode : String → Int) (P D : List TupleMap)
    (h : ∀ x ∈ P, ∀ y ∈ D, sameIdentity hashcode x y → x = y) :
    diffSQLInjectionMatchTuplesWR hashcode P D =
      diffSQLInjectionMatchTuplesWRWith indexOfEqual P D := by
  rw [← diffWith_sliceContainsMap, diffWith_eq, diffWith_eq]
  obtain ⟨h₁, h₂⟩ := loops_congr (sliceContainsMap hashcode) indexOfEqual P D
    (fun p hp l hl =>
      sliceContainsMap_eq_indexOfEqual hashcode l p (fun x hx => h p hp x (hl.subset hx)))
  rw [h₁, h₂]

/-! ## The claims -/

/-- C1 (diff correctness).  For a duplicate-free previous list `P` and any
desired list `D`, removing from `P` the records carried by the Delete
operations of the diff and adding the records carried by its Insert operations
gives a collection that is identity-equal to `D`: the Record Identities of the
result are those of `D`, with the same multiplicities.  Whenever identity-equal
records of `P` and `D` are equal records, the result is a rearrangement of `D`
itself. -/
theorem diff_correctness (hashcode : String → Int) (P D : List TupleMap) (hP : P.Nodup) :
    List.Perm
        ((applyUpdates P (diffSQLInjectionMatchTuplesWR hashcode P D)).map
          (resourceSQLInjectionMatchSetTupleHash hashcode))
        (D.map (resourceSQLInjectionMatchSetTupleHash hashcode)) ∧
      ((∀ p ∈ P, ∀ d ∈ D, sameIdentity hashcode p d → p = d) →
        List.Perm (applyUpdates P (diffSQLInjectionMatchTuplesWR hashcode P D)) D) := by
  rw [applyUpdates_diff hashcode P D hP]
  exact ⟨matched_remaining_perm hashcode P D, matched_remaining_perm_eq hashcode P D⟩

/-- C2 (no-op stability).  The diff of any list against itself is empty. -/
theorem diff_self_nil (hashcode : String → Int) (S : List TupleMap) :
    diffSQLInjectionMatchTuplesWR hashcode S S = [] := by
  rw [diff_eq, unmatchedOld_self, remainingNew_self]
  rfl

/-- C3 (unchanged records are untouched).  When the previous and the desired
list are duplicate-free (no two records of a list share an identity), a record
that occurs in both is carried by no operation of the diff; and for `A`, `B`,
`C` of pairwise distinct identities the diff of `[A, B]` against `[B, C]` is
exactly `[Delete(A), Insert(C)]`. -/
theorem unchanged_records_untouched (hashcode : String → Int) :
    (∀ (P D : List TupleMap) (r : TupleMap),
        UniqueIdentities hashcode P → UniqueIdentities hashcode D → r ∈ P → r ∈ D →
          ∀ u ∈ diffSQLInjectionMatchTuplesWR hashcode P D, carriedRecord u ≠ r) ∧
      (∀ A B C : TupleMap, UniqueIdentities hashcode [A, B, C] →
        diffSQLInjectionMatchTuplesWR hashcode [A, B] [B, C] =
          [deleteUpdate A, insertUpdate C]) := by
  refine ⟨?_, ?_⟩
  · intro P D r hP hD hrP hrD u hu hcr
    obtain ⟨h₁, h₂⟩ :=
      matched_pair_absent hashcode P D r r hP hD hrP hrD (sameIdentity_refl hashcode r)
    rcases (mem_diff_iff hashcode P D u).1 hu with ⟨p, hp, rfl⟩ | ⟨d, hd, rfl⟩
    · rw [carriedRecord_deleteUpdate] at hcr
      exact h₁ (hcr ▸ hp)
    · rw [carriedRecord_insertUpdate] at hcr
      exact h₂ (hcr ▸ hd)
  · intro A B C h
    obtain ⟨hAB, hAC, -⟩ := abc_distinct h
    simp [diff_eq, unmatchedOld, remainingNew, sliceContainsMap, hAB, hAC, sameIdentity_refl]

/-- C4 (what is deleted).  When the previous list `P` is duplicate-free (unique
identities), the Delete operations of the diff are, in the order of `P`, the
Deletes of the records of `P` without an identity-equal record in the original
desired list `D`; each Delete carries the field_to_match and text_transformation
of its own previous record. -/
theorem deletes_characterised (hashcode : String → Int) (P D : List TupleMap)
    (hP : UniqueIdentities hashcode P) :
    (diffSQLInjectionMatchTuplesWR hashcode P D).filter
        (fun u => u.Action = ChangeAction.Delete) =
      (P.filter (fun p => !hasMatch hashcode D p)).map deleteUpdate ∧
    ∀ p : TupleMap,
      (deleteUpdate p).Action = ChangeAction.Delete ∧
      (deleteUpdate p).SqlInjectionMatchTuple.FieldToMatch =
        expandFieldToMatch p.field_to_match ∧
      (deleteUpdate p).SqlInjectionMatchTuple.FieldToMatch.Data = p.field_to_match.data ∧
      (deleteUpdate p).SqlInjectionMatchTuple.FieldToMatch.Type_ = p.field_to_match.type ∧
      (deleteUpdate p).SqlInjectionMatchTuple.TextTransformation = p.text_transformation := by
  refine ⟨?_, fun p => ⟨rfl, rfl, rfl, rfl, rfl⟩⟩
  rw [filter_delete_diff, unmatchedOld_eq_filter hashcode P D hP]

/-- C5 (empty previous).  Against an empty previous list the diff is one Insert
per desired record, in the order of the desired list, each carrying that
record's fields, and it holds no Delete; for the single desired record `X` it
is exactly `[Insert(X)]`. -/
theorem diff_nil_left (hashcode : String → Int) (D : List TupleMap) :
    diffSQLInjectionMatchTuplesWR hashcode [] D = D.map insertUpdate ∧
    (∀ X : TupleMap, diffSQLInjectionMatchTuplesWR hashcode [] [X] = [insertUpdate X]) ∧
    (∀ u ∈ diffSQLInjectionMatchTuplesWR hashcode [] D, u.Action ≠ ChangeAction.Delete) ∧
    ∀ d : TupleMap,
      (insertUpdate d).Action = ChangeAction.Insert ∧
      (insertUpdate d).SqlInjectionMatchTuple.FieldToMatch =
        expandFieldToMatch d.field_to_match ∧
      (insertUpdate d).SqlInjectionMatchTuple.FieldToMatch.Data = d.field_to_match.data ∧
      (insertUpdate d).SqlInjectionMatchTuple.FieldToMatch.Type_ = d.field_to_match.type ∧
      (insertUpdate d).SqlInjectionMatchTuple.TextTransformation = d.text_transformation := by
  have h : diffSQLInjectionMatchTuplesWR hashcode [] D = D.map insertUpdate := by
    simp [diff_eq, unmatchedOld, remainingNew]
  refine ⟨h, fun X => by simp [diff_eq, unmatchedOld, remainingNew], ?_,
    fun d => ⟨rfl, rfl, rfl, rfl, rfl⟩⟩
  intro u hu
  rw [h] at hu
  obtain ⟨d, -, rfl⟩ := List.mem_map.1 hu
  simp [insertUpdate]

/-- C6 (order policy).  In the list returned by the diff every Delete stands
before every Insert: a Delete at position `i` and an Insert at position `j`
have `i < j`. -/
theorem deletes_before_inserts (hashcode : String → Int) (P D : List TupleMap) (i j : Nat)
    (u v : SqlInjectionMatchSetUpdate)
    (hu : (diffSQLInjectionMatchTuplesWR hashcode P D)[i]? = some u)
    (hv : (diffSQLInjectionMatchTuplesWR hashcode P D)[j]? = some v)
    (hdel : u.Action = ChangeAction.Delete) (hins : v.Action = ChangeAction.Insert) : i < j := by
  rw [diff_eq] at hu hv
  have hi : i < ((unmatchedOld hashcode P D).map deleteUpdate).length := by
    by_contra hlt
    rw [List.getElem?_append_right (Nat.le_of_not_lt hlt)] at hu
    obtain ⟨d, -, rfl⟩ := List.mem_map.1 (List.getElem?_mem hu)
    simp [insertUpdate] at hdel
  have hj : ((unmatchedOld hashcode P D).map deleteUpdate).length ≤ j := by
    by_contra hlt
    rw [List.getElem?_append_left (Nat.lt_of_not_le hlt)] at hv
    obtain ⟨p, -, rfl⟩ := List.mem_map.1 (List.getElem?_mem hv)
    simp [deleteUpdate] at hins
  exact Nat.lt_of_lt_of_le hi hj

/-- C8 (the diff and the caller's desired list).  With previous `[B]` and
desired `[B, C]` the call returns `[Insert(C)]` and leaves `[C, nil]` in the
caller's desired slice, whatever the hash function; a second evaluation on the
same slice panics instead of returning `[Insert(C)]` again. -/
theorem diff_overwrites_desired_slice (hashcode : String → Int) :
    diffSQLInjectionMatchTuplesWRCells hashcode [tupleB] [some tupleB, some tupleC] =
        some ([insertUpdate tupleC], [some tupleC, none]) ∧
      diffTwice hashcode [tupleB] [tupleB, tupleC] = some ([insertUpdate tupleC], none) := by
  have h₁ : diffSQLInjectionMatchTuplesWRCells hashcode [tupleB] [some tupleB, some tupleC] =
      some ([insertUpdate tupleC], [some tupleC, none]) := by
    simp [diffSQLInjectionMatchTuplesWRCells, diffStepCells, sliceContainsMapCells,
      sameIdentity_refl, insertLoopCells]
  refine ⟨h₁, ?_⟩
  have h₂ : diffSQLInjectionMatchTuplesWRCells hashcode [tupleB] [some tupleC, none] = none := by
    by_cases h : sameIdentity hashcode tupleB tupleC
    · simp [diffSQLInjectionMatchTuplesWRCells, diffStepCells, sliceContainsMapCells, h,
        insertLoopCells]
    · simp [diffSQLInjectionMatchTuplesWRCells, diffStepCells, sliceContainsMapCells, h]
  simp only [diffTwice, List.map_cons, List.map_nil, h₁, h₂, Option.map_none']

/-- C9 (identity case normalisation).  Two records with the same type, the same
text transformation and `data` equal after lower-casing have the same identity;
in particular the identity of a record with data "Foo" is that of the record
with data "foo". -/
theorem identity_case_normalisation (hashcode : String → Int) :
    (∀ r1 r2 : TupleMap,
        r1.field_to_match.type = r2.field_to_match.type →
        r1.text_transformation = r2.text_transformation →
        r1.field_to_match.data.map toLower = r2.field_to_match.data.map toLower →
        resourceSQLInjectionMatchSetTupleHash hashcode r1 =
          resourceSQLInjectionMatchSetTupleHash hashcode r2) ∧
      (∀ type tt : String,
        resourceSQLInjectionMatchSetTupleHash hashcode (mkTuple (some "Foo") type tt) =
          resourceSQLInjectionMatchSetTupleHash hashcode (mkTuple (some "foo") type tt)) := by
  have key : ∀ r1 r2 : TupleMap,
      r1.field_to_match.type = r2.field_to_match.type →
      r1.text_transformation = r2.text_transformation →
      r1.field_to_match.data.map toLower = r2.field_to_match.data.map toLower →
      resourceSQLInjectionMatchSetTupleHash hashcode r1 =
        resourceSQLInjectionMatchSetTupleHash hashcode r2 := by
    intro r1 r2 hty htt hdata
    obtain ⟨⟨d1, t1⟩, x1⟩ := r1
    obtain ⟨⟨d2, t2⟩, x2⟩ := r2
    simp only at hty htt hdata
    subst hty htt
    unfold resourceSQLInjectionMatchSetTupleHash tupleHashBuffer
    cases d1 <;> cases d2 <;> simp_all
  refine ⟨key, fun type tt => key _ _ rfl rfl ?_⟩
  simp [mkTuple, toLower_Foo]

/-- C10, counterexample.  The records (data "x", type "HEADER") and (no data,
type "x-HEADER") are hashed through the same string "x-HEADER-NONE-", so their
identities are equal for every hash function, yet they differ in the presence
of `data` and in the type. -/
theorem identity_iff_fails :
    (∀ hashcode : String → Int,
        resourceSQLInjectionMatchSetTupleHash hashcode tupleDashLeft =
          resourceSQLInjectionMatchSetTupleHash hashcode tupleDashRight) ∧
      ¬ agreeOnIdentityFields tupleDashLeft tupleDashRight := by
  refine ⟨fun hashcode => ?_, by decide⟩
  have h : tupleHashBuffer tupleDashLeft = tupleHashBuffer tupleDashRight := by decide
  simp [resourceSQLInjectionMatchSetTupleHash, h]

/-- C10, amended.  Records that agree on the presence and lower-cased value of
`data`, on the type and on the text transformation are hashed through the same
string and so have the same identity. -/
theorem identity_of_agreement (hashcode : String → Int) (r1 r2 : TupleMap)
    (h : agreeOnIdentityFields r1 r2) :
    tupleHashBuffer r1 = tupleHashBuffer r2 ∧
      resourceSQLInjectionMatchSetTupleHash hashcode r1 =
        resourceSQLInjectionMatchSetTupleHash hashcode r2 := by
  obtain ⟨⟨d1, t1⟩, x1⟩ := r1
  obtain ⟨⟨d2, t2⟩, x2⟩ := r2
  obtain ⟨hd, hty, htt⟩ := h
  simp only at hd hty htt
  subst hty htt
  have hb : tupleHashBuffer ⟨⟨d1, t1⟩, x1⟩ = tupleHashBuffer ⟨⟨d2, t1⟩, x1⟩ := by
    unfold tupleHashBuffer
    cases d1 <;> cases d2 <;> simp_all
  exact ⟨hb, by simp [resourceSQLInjectionMatchSetTupleHash, hb]⟩

/-! ## The theorems at concrete records -/

/-- The list `[A, B]` is duplicate-free, and the diff of `[A, B]` against
`[B, C]`, applied to `[A, B]`, gives the records of `[B, C]`. -/
theorem diff_correctness_witness :
    [tupleA, tupleB].Nodup ∧
      List.Perm
        (applyUpdates [tupleA, tupleB]
          (diffSQLInjectionMatchTuplesWR sampleHashcode [tupleA, tupleB] [tupleB, tupleC]))
        [tupleB, tupleC] :=
  ⟨by decide,
    (diff_correctness sampleHashcode [tupleA, tupleB] [tupleB, tupleC] (by decide)).2
      (by decide)⟩

/-- The lists `[A, B]` and `[B, C]` have unique identities and share `B`; in
their diff no operation carries `B`, and the diff is `[Delete(A), Insert(C)]`. -/
theorem unchanged_records_untouched_witness :
    (UniqueIdentities sampleHashcode [tupleA, tupleB] ∧
      UniqueIdentities sampleHashcode [tupleB, tupleC] ∧
      UniqueIdentities sampleHashcode [tupleA, tupleB, tupleC]) ∧
    (∀ u ∈ diffSQLInjectionMatchTuplesWR sampleHashcode [tupleA, tupleB] [tupleB, tupleC],
        carriedRecord u ≠ tupleB) ∧
      diffSQLInjectionMatchTuplesWR sampleHashcode [tupleA, tupleB] [tupleB, tupleC] =
        [deleteUpdate tupleA, insertUpdate tupleC] :=
  ⟨⟨by decide, by decide, by decide⟩,
    (unchanged_records_untouched sampleHashcode).1 [tupleA, tupleB] [tupleB, tupleC] tupleB
      (by decide) (by decide) (by decide) (by decide),
    (unchanged_records_untouched sampleHashcode).2 tupleA tupleB tupleC (by decide)⟩

/-- The list `[A, B]` has unique identities, and the only Delete of its diff
against `[B, C]` is `Delete(A)`. -/
theorem deletes_characterised_witness :
    UniqueIdentities sampleHashcode [tupleA, tupleB] ∧
      (diffSQLInjectionMatchTuplesWR sampleHashcode [tupleA, tupleB] [tupleB, tupleC]).filter
          (fun u => u.Action = ChangeAction.Delete) = [deleteUpdate tupleA] :=
  ⟨by decide,
    (deletes_characterised sampleHashcode [tupleA, tupleB] [tupleB, tupleC] (by decide)).1.trans
      (by decide)⟩

/-- In the diff of `[A, B]` against `[B, C]` the Delete of `A` is at position 0
and the Insert of `C` at position 1. -/
theorem deletes_before_inserts_witness :
    (diffSQLInjectionMatchTuplesWR sampleHashcode [tupleA, tupleB] [tupleB, tupleC])[0]? =
        some (deleteUpdate tupleA) ∧
      (diffSQLInjectionMatchTuplesWR sampleHashcode [tupleA, tupleB] [tupleB, tupleC])[1]? =
        some (insertUpdate tupleC) ∧
      0 < 1 :=
  ⟨by decide, by decide,
    deletes_before_inserts sampleHashcode [tupleA, tupleB] [tupleB, tupleC] 0 1
      (deleteUpdate tupleA) (insertUpdate tupleC) (by decide) (by decide) rfl rfl⟩

/-- The records with data "Foo" and "foo" have the same type, the same text
transformation and the same lower-cased data, and so the same identity. -/
theorem identity_case_normalisation_witness :
    tupleFoo.field_to_match.data.map toLower = tupleFooLower.field_to_match.data.map toLower ∧
      resourceSQLInjectionMatchSetTupleHash sampleHashcode tupleFoo =
        resourceSQLInjectionMatchSetTupleHash sampleHashcode tupleFooLower :=
  ⟨by decide,
    (identity_case_normalisation sampleHashcode).1 tupleFoo tupleFooLower rfl rfl (by decide)⟩

/-- The records with data "Foo" and "foo" agree on the compared fields and are
hashed through the same string. -/
theorem identity_of_agreement_witness :
    agreeOnIdentityFields tupleFoo tupleFooLower ∧
      tupleHashBuffer tupleFoo = tupleHashBuffer tupleFooLower :=
  ⟨by decide, (identity_of_agreement sampleHashcode tupleFoo tupleFooLower (by decide)).1⟩

/-! ## Lemmas on the untyped identity, the retryer and the mutations -/

theorem hashAny_of_isSetElement (hashcode : String → Int) (v : GoValue) (h : IsSetElement v) :
    ∃ i, resourceSQLInjectionMatchSetTupleHashAny hashcode v = some i := by
  obtain ⟨m, ftm, rest, ty, tt, rfl, h₁, h₂, h₃, h₄⟩ := h
  rcases h₄ with h₄ | ⟨d, h₄⟩
  · simp [resourceSQLInjectionMatchSetTupleHashAny, h₁, h₂, h₃, h₄]
  · simp [resourceSQLInjectionMatchSetTupleHashAny, h₁, h₂, h₃, h₄]

theorem isSetElement_toAny (r : TupleMap) : IsSetElement r.toAny := by
  obtain ⟨⟨d, ty⟩, tt⟩ := r
  cases d with
  | none => exact ⟨_, _, _, ty, tt, rfl, rfl, rfl, rfl, Or.inl rfl⟩
  | some d => exact ⟨_, _, _, ty, tt, rfl, rfl, rfl, rfl, Or.inr ⟨d, rfl⟩⟩

theorem hashAny_toAny (hashcode : String → Int) (r : TupleMap) :
    resourceSQLInjectionMatchSetTupleHashAny hashcode r.toAny =
      some (resourceSQLInjectionMatchSetTupleHash hashcode r) := by
  obtain ⟨⟨d, ty⟩, tt⟩ := r
  cases d <;>
    simp [resourceSQLInjectionMatchSetTupleHashAny, TupleMap.toAny, List.lookup,
      resourceSQLInjectionMatchSetTupleHash, tupleHashBuffer]

/-- When the closure answers every call with a token conflict, the retryer
fetches one token per attempt of its budget and ends with the
contention-exhausted error. -/
theorem retry_all_conflict {σ : Type} (GetChangeToken : Nat → Option String)
    (f : σ → String → Option (Option GoError × σ))
    (hf : ∀ st token, ∃ err st', f st token = some (some err, st') ∧
      err.IsA ErrorKind.WAFStaleDataException = true)
    (remaining attempt : Nat) (st : σ) :
    (RetryWithToken GetChangeToken f remaining attempt st).fetches = attempt + remaining ∧
      (RetryWithToken GetChangeToken f remaining attempt st).result =
        some (some GoError.contentionExhausted) := by
  induction remaining generalizing attempt st with
  | zero => simp [RetryWithToken]
  | succ n ih =>
    cases hg : GetChangeToken attempt with
    | none =>
      have := ih (attempt + 1) st
      simp only [RetryWithToken, hg]
      exact ⟨by omega, this.2⟩
    | some token =>
      obtain ⟨err, st', hfe, hstale⟩ := hf st token
      have := ih (attempt + 1) st'
      simp only [RetryWithToken, hg, hfe, hstale, if_true]
      exact ⟨by omega, this.2⟩

/-- A closure that never panics on the states it can reach makes the retryer
return. -/
theorem retry_returns {σ : Type} (GetChangeToken : Nat → Option String)
    (f : σ → String → Option (Option GoError × σ)) (inv : σ → Prop)
    (hf : ∀ st token, inv st → ∃ r st', f st token = some (r, st') ∧ inv st')
    (remaining attempt : Nat) (st : σ) (hst : inv st) :
    ∃ r, (RetryWithToken GetChangeToken f remaining attempt st).result = some r := by
  induction remaining generalizing attempt st with
  | zero => exact ⟨_, rfl⟩
  | succ n ih =>
    cases hg : GetChangeToken attempt with
    | none => simpa [RetryWithToken, hg] using ih (attempt + 1) st hst
    | some token =>
      obtain ⟨r, st', hfe, hinv⟩ := hf st token hst
      cases r with
      | none => exact ⟨none, by simp [RetryWithToken, hg, hfe]⟩
      | some err =>
        by_cases hstale : err.IsA ErrorKind.WAFStaleDataException = true
        · simpa [RetryWithToken, hg, hfe, hstale] using ih (attempt + 1) st' hinv
        · exact ⟨some err, by simp [RetryWithToken, hg, hfe, hstale]⟩

theorem diffCells_nil (hashcode : String → Int) (oldT : List TupleMap) :
    diffSQLInjectionMatchTuplesWRCells hashcode oldT [] =
      some (diffSQLInjectionMatchTuplesWR hashcode oldT [], []) := by
  have hm : ∀ P : List TupleMap, matchedOld hashcode P [] = [] := by
    intro P
    induction P with
    | nil => rfl
    | cons p P ih => simp [matchedOld, sliceContainsMap, ih]
  have hr : remainingNew hashcode oldT [] = [] :=
    List.eq_nil_of_sublist_nil (remainingNew_sublist hashcode oldT [])
  have h := diffCells_eq hashcode oldT []
  simpa [hr, hm oldT] using h

/-- The reconciliation step of the delete never panics: with an empty desired
list the diff leaves the captured slice empty. -/
theorem deleteReconcileStep_returns (hashcode : String → Int) (maxAttempts : Nat) (conn : Conn)
    (id : String) (oldTuples : List TupleMap) :
    ∃ u, deleteReconcileStep hashcode maxAttempts conn id oldTuples = some u := by
  unfold deleteReconcileStep
  split
  · obtain ⟨r, hr⟩ := retry_returns conn.GetChangeToken
      (updateClosure hashcode conn id oldTuples) (fun st => st.newT = [])
      (by
        intro st token hst
        have hc : updateClosure hashcode conn id oldTuples st token =
            some ((conn.UpdateSqlInjectionMatchSet st.requests
                { ChangeToken := token, SqlInjectionMatchSetId := id,
                  Updates := diffSQLInjectionMatchTuplesWR hashcode oldTuples [] }).map
                GoError.remote,
              { newT := [],
                requests := st.requests ++
                  [{ ChangeToken := token, SqlInjectionMatchSetId := id,
                     Updates := diffSQLInjectionMatchTuplesWR hashcode oldTuples [] }] }) := by
          simp only [updateClosure, hst, diffCells_nil]
        exact ⟨_, _, hc, rfl⟩)
      maxAttempts 0 { newT := [], requests := [] } rfl
    have hr' : (updateRetry hashcode maxAttempts conn id oldTuples []).result = some r := hr
    cases r with
    | none => exact ⟨none, by simp [updateSQLInjectionMatchSet, hr']⟩
    | some err => exact ⟨some (updateErrorf id err), by simp [updateSQLInjectionMatchSet, hr']⟩
  · exact ⟨none, rfl⟩

theorem deleteCallStep_returns (maxAttempts : Nat) (conn : Conn) (id : String) :
    ∃ c, deleteCallStep maxAttempts conn id = some c :=
  retry_returns conn.GetChangeToken (deleteClosure conn id) (fun _ => True)
    (fun _ _ _ => ⟨_, _, rfl, trivial⟩) maxAttempts 0 [] trivial

/-- Lists with the same identities, with multiplicities, have an empty diff. -/
theorem diff_nil_of_identity_perm (hashcode : String → Int) (P D : List TupleMap)
    (h : List.Perm (P.map (resourceSQLInjectionMatchSetTupleHash hashcode))
      (D.map (resourceSQLInjectionMatchSetTupleHash hashcode))) :
    diffSQLInjectionMatchTuplesWR hashcode P D = [] := by
  rw [diff_eq]
  induction P generalizing D with
  | nil =>
    have hD : D = [] := by
      have := h.length_eq
      simpa using this.symm
    subst hD
    rfl
  | cons p P ih =>
    have hmem : resourceSQLInjectionMatchSetTupleHash hashcode p ∈
        D.map (resourceSQLInjectionMatchSetTupleHash hashcode) :=
      h.subset (by simp)
    obtain ⟨d, hd, hdp⟩ := List.mem_map.1 hmem
    cases hs : sliceContainsMap hashcode D p with
    | none =>
      exact absurd (Eq.symm hdp) ((sliceContainsMap_none_iff hashcode D p).1 hs d hd)
    | some idx =>
      obtain ⟨l₁, x, l₂, h₁, h₂, h₃, -, -⟩ := sliceContainsMap_some hashcode D p idx hs
      have hx : resourceSQLInjectionMatchSetTupleHash hashcode p =
          resourceSQLInjectionMatchSetTupleHash hashcode x := h₃
      have hperm : List.Perm (P.map (resourceSQLInjectionMatchSetTupleHash hashcode))
          ((D.eraseIdx idx).map (resourceSQLInjectionMatchSetTupleHash hashcode)) := by
        rw [h₂]
        rw [h₁] at h
        have h' : List.Perm
            (resourceSQLInjectionMatchSetTupleHash hashcode x ::
              P.map (resourceSQLInjectionMatchSetTupleHash hashcode))
            (resourceSQLInjectionMatchSetTupleHash hashcode x ::
              (l₁ ++ l₂).map (resourceSQLInjectionMatchSetTupleHash hashcode)) := by
          simp only [List.map_cons] at h
          rw [hx] at h
          refine h.trans ?_
          simp only [List.map_append, List.map_cons]
          exact List.perm_middle
        exact List.Perm.cons_inv h'
      simpa [unmatchedOld, remainingNew, hs] using ih (D.eraseIdx idx) hperm

theorem diffCells_B_BC (hashcode : String → Int) :
    diffSQLInjectionMatchTuplesWRCells hashcode [tupleB] [some tupleB, some tupleC] =
      some ([insertUpdate tupleC], [some tupleC, none]) := by
  simp [diffSQLInjectionMatchTuplesWRCells, diffStepCells, sliceContainsMapCells,
    sameIdentity_refl, insertLoopCells]

theorem diffCells_B_Cnil (hashcode : String → Int) :
    diffSQLInjectionMatchTuplesWRCells hashcode [tupleB] [some tupleC, none] = none := by
  by_cases h : sameIdentity hashcode tupleB tupleC
  · simp [diffSQLInjectionMatchTuplesWRCells, diffStepCells, sliceContainsMapCells, h,
      insertLoopCells]
  · simp [diffSQLInjectionMatchTuplesWRCells, diffStepCells, sliceContainsMapCells, h]

theorem updateClosure_fresh (hashcode : String → Int) (conn : Conn) (id : String)
    (oldT newT : List TupleMap) (token : String) :
    updateClosure hashcode conn id oldT { newT := newT.map some, requests := [] } token =
      some ((conn.UpdateSqlInjectionMatchSet []
          { ChangeToken := token, SqlInjectionMatchSetId := id,
            Updates := diffSQLInjectionMatchTuplesWR hashcode oldT newT }).map GoError.remote,
        { newT := (remainingNew hashcode oldT newT).map some ++
            List.replicate (matchedOld hashcode oldT newT).length none
          requests := [{ ChangeToken := token, SqlInjectionMatchSetId := id,
                         Updates := diffSQLInjectionMatchTuplesWR hashcode oldT newT }] }) := by
  simp [updateClosure, diffCells_eq]

/-! ## The claims on identity totality, the retryer and the mutations -/

/-- C11 (identity computation is total).  On every value that has the shape of
a set element the identity function returns a value and does not panic; for
the element a typed record stands for, that value is the identity of the
record. -/
theorem identity_total (hashcode : String → Int) :
    (∀ v : GoValue, IsSetElement v →
        ∃ i, resourceSQLInjectionMatchSetTupleHashAny hashcode v = some i) ∧
      (∀ r : TupleMap, IsSetElement r.toAny ∧
        resourceSQLInjectionMatchSetTupleHashAny hashcode r.toAny =
          some (resourceSQLInjectionMatchSetTupleHash hashcode r)) :=
  ⟨hashAny_of_isSetElement hashcode,
    fun r => ⟨isSetElement_toAny r, hashAny_toAny hashcode r⟩⟩

/-- C16 (one mixed batch under the supplied token).  On the first attempt the
closure issues exactly one request, with the supplied token, the given id and
the whole diff of the two lists.  With previous `[B]`, desired `[B, C]` and a
service that answers with a token conflict, the second token is fetched and
handed to the closure, which panics in the diff and issues no request for
it. -/
theorem update_request_per_attempt (hashcode : String → Int) :
    (∀ (conn : Conn) (id : String) (oldT newT : List TupleMap) (token : String),
        ∃ r cells,
          updateClosure hashcode conn id oldT { newT := newT.map some, requests := [] } token =
            some (r,
              { newT := cells
                requests := [{ ChangeToken := token, SqlInjectionMatchSetId := id,
                               Updates := diffSQLInjectionMatchTuplesWR hashcode oldT newT }] })) ∧
      ((updateRetry hashcode 2 (connUpdateFails staleData) "set-1" [tupleB]
            [tupleB, tupleC]).result = none ∧
        (updateRetry hashcode 2 (connUpdateFails staleData) "set-1" [tupleB]
            [tupleB, tupleC]).fetches = 2 ∧
        (updateRetry hashcode 2 (connUpdateFails staleData) "set-1" [tupleB]
            [tupleB, tupleC]).state.requests =
          [{ ChangeToken := "token-0", SqlInjectionMatchSetId := "set-1",
             Updates := [insertUpdate tupleC] }]) := by
  refine ⟨fun conn id oldT newT token => ⟨_, _, updateClosure_fresh hashcode conn id oldT newT token⟩,
    ?_⟩
  have h0 : (connUpdateFails staleData).GetChangeToken 0 = some "token-0" := by decide
  have h1 : (connUpdateFails staleData).GetChangeToken 1 = some "token-1" := by decide
  have hc0 : updateClosure hashcode (connUpdateFails staleData) "set-1" [tupleB]
      { newT := [some tupleB, some tupleC], requests := [] } "token-0" =
      some (some (GoError.remote staleData),
        { newT := [some tupleC, none],
          requests := [{ ChangeToken := "token-0", SqlInjectionMatchSetId := "set-1",
                         Updates := [insertUpdate tupleC] }] }) := by
    simp [updateClosure, diffCells_B_BC, connUpdateFails]
  have hc1 : updateClosure hashcode (connUpdateFails staleData) "set-1" [tupleB]
      { newT := [some tupleC, none],
        requests := [{ ChangeToken := "token-0", SqlInjectionMatchSetId := "set-1",
                       Updates := [insertUpdate tupleC] }] } "token-1" = none := by
    simp [updateClosure, diffCells_B_Cnil]
  have hstale : (GoError.remote staleData).IsA ErrorKind.WAFStaleDataException = true := by
    decide
  have hrun : updateRetry hashcode 2 (connUpdateFails staleData) "set-1" [tupleB]
      [tupleB, tupleC] =
      { result := none, fetches := 2,
        state := { newT := [some tupleC, none],
                   requests := [{ ChangeToken := "token-0", SqlInjectionMatchSetId := "set-1",
                                  Updates := [insertUpdate tupleC] }] } } := by
    simp only [updateRetry, RetryWithToken, List.map_cons, List.map_nil, h0, h1, hc0, hc1,
      hstale, if_true]
  rw [hrun]
  exact ⟨rfl, rfl, rfl⟩

/-- C17 (conflict retry bound).  A retryer with a budget of `N` attempts whose
closure always fails with the token conflict fetches a token exactly `N` times
and returns the contention-exhausted error, which is no remote error and none
of the service exception types. -/
theorem conflict_retry_bound {σ : Type} (N : Nat) (GetChangeToken : Nat → Option String)
    (f : σ → String → Option (Option GoError × σ)) (st : σ)
    (hf : ∀ st token, ∃ err st', f st token = some (some err, st') ∧
      err.IsA ErrorKind.WAFStaleDataException = true) :
    (RetryWithToken GetChangeToken f N 0 st).fetches = N ∧
      (RetryWithToken GetChangeToken f N 0 st).result =
        some (some GoError.contentionExhausted) ∧
      (∀ e : RemoteError, GoError.contentionExhausted ≠ GoError.remote e) ∧
      (∀ k : ErrorKind, GoError.contentionExhausted.IsA k = false) := by
  have h := retry_all_conflict GetChangeToken f hf N 0 st
  refine ⟨by simpa using h.1, h.2, ?_, fun k => rfl⟩
  intro e he
  cases he

/-- C18, counterexample.  The tuple reconciliation returns an error (the
service answers `UpdateSqlInjectionMatchSet` with a not-found exception), and
the delete operation returns no error diagnostics. -/
theorem delete_drops_not_found :
    deleteReconcileStep sampleHashcode 3 (connUpdateFails nonexistentItem) "set-1" [tupleB] =
        some (some (updateErrorf "set-1" (GoError.remote nonexistentItem))) ∧
      resourceSQLInjectionMatchSetDelete sampleHashcode 3 (connUpdateFails nonexistentItem)
        "set-1" [tupleB] = some [] := by
  constructor <;> decide

/-- C18, amended.  Both steps of the delete return.  An error of the tuple
reconciliation that is neither a nonexistent-item nor a nonexistent-container
exception becomes the error diagnostic; otherwise an error of the
`DeleteSqlInjectionMatchSet` call that is no nonexistent-item exception becomes
the error diagnostic; the operation returns no error exactly when each step
returned `nil` or one of those not-found exceptions. -/
theorem delete_error_propagation (hashcode : String → Int) (maxAttempts : Nat) (conn : Conn)
    (id : String) (oldTuples : List TupleMap) :
    ∃ u c,
      deleteReconcileStep hashcode maxAttempts conn id oldTuples = some u ∧
      deleteCallStep maxAttempts conn id = some c ∧
      (∀ err, u = some err →
        passesDelete [ErrorKind.WAFNonexistentItemException,
          ErrorKind.WAFNonexistentContainerException] u = false →
        resourceSQLInjectionMatchSetDelete hashcode maxAttempts conn id oldTuples =
          some [err.Error]) ∧
      (passesDelete [ErrorKind.WAFNonexistentItemException,
          ErrorKind.WAFNonexistentContainerException] u = true →
        ∀ err, c = some err → passesDelete [ErrorKind.WAFNonexistentItemException] c = false →
          resourceSQLInjectionMatchSetDelete hashcode maxAttempts conn id oldTuples =
            some ["deleting WAF Regional SQL Injection Match Set (" ++ id ++ "): " ++
              err.Error]) ∧
      (resourceSQLInjectionMatchSetDelete hashcode maxAttempts conn id oldTuples = some [] ↔
        passesDelete [ErrorKind.WAFNonexistentItemException,
            ErrorKind.WAFNonexistentContainerException] u = true ∧
          passesDelete [ErrorKind.WAFNonexistentItemException] c = true) := by
  obtain ⟨u, hu⟩ := deleteReconcileStep_returns hashcode maxAttempts conn id oldTuples
  obtain ⟨c, hc⟩ := deleteCallStep_returns maxAttempts conn id
  refine ⟨u, c, hu, hc, ?_, ?_, ?_⟩
  · intro err hue hpass
    subst hue
    have h1 : err.IsA ErrorKind.WAFNonexistentItemException = false := by
      simpa [passesDelete] using (by simpa [passesDelete] using hpass : _ ∧ _).1
    have h2 : err.IsA ErrorKind.WAFNonexistentContainerException = false := by
      simpa [passesDelete] using (by simpa [passesDelete] using hpass : _ ∧ _).2
    simp [resourceSQLInjectionMatchSetDelete, hu, Option.filter, h1, h2]
  · intro hpass err hce hpc
    subst hce
    have h3 : err.IsA ErrorKind.WAFNonexistentItemException = false := by
      simpa [passesDelete] using hpc
    cases u with
    | none => simp [resourceSQLInjectionMatchSetDelete, hu, hc, Option.filter, h3]
    | some e =>
      have : (e.IsA ErrorKind.WAFNonexistentItemException ||
          e.IsA ErrorKind.WAFNonexistentContainerException) = true := by
        simpa [passesDelete] using hpass
      rcases Bool.or_eq_true _ _ ▸ this with h | h <;>
        simp [resourceSQLInjectionMatchSetDelete, hu, hc, Option.filter, h, h3]
  · cases u with
    | none =>
      cases c with
      | none => simp [resourceSQLInjectionMatchSetDelete, hu, hc, Option.filter, passesDelete]
      | some e =>
        cases h : e.IsA ErrorKind.WAFNonexistentItemException <;>
          simp [resourceSQLInjectionMatchSetDelete, hu, hc, Option.filter, passesDelete, h]
    | some e' =>
      cases h1 : e'.IsA ErrorKind.WAFNonexistentItemException <;>
        cases h2 : e'.IsA ErrorKind.WAFNonexistentContainerException <;>
          cases c with
          | none =>
            simp [resourceSQLInjectionMatchSetDelete, hu, hc, Option.filter, passesDelete, h1, h2]
          | some e =>
            cases h : e.IsA ErrorKind.WAFNonexistentItemException <;>
              simp [resourceSQLInjectionMatchSetDelete, hu, hc, Option.filter, passesDelete, h1,
                h2, h]

/-- C19, counterexample.  With the same set id and the same remote failure, the
reconciliation of the record `A` and that of the record `B` return the same
error, whose text names the set id and the remote error only. -/
theorem update_error_same_for_any_record :
    tupleA ≠ tupleB ∧
      updateSQLInjectionMatchSet sampleHashcode 3 (connUpdateFails accessDenied) "set-1"
          [tupleA] [] =
        updateSQLInjectionMatchSet sampleHashcode 3 (connUpdateFails accessDenied) "set-1"
          [tupleB] [] ∧
      (updateSQLInjectionMatchSet sampleHashcode 3 (connUpdateFails accessDenied) "set-1"
          [tupleA] []).map (Option.map GoError.Error) =
        some (some "updating WAF Regional SQL Injection Match Set (set-1): AccessDeniedException") := by
  refine ⟨by decide, by decide, by decide⟩

/-- C19, amended.  When the first request of the reconciliation fails with a
remote error other than the token conflict, `updateSQLInjectionMatchSet`
returns that error wrapped with the set id, whatever the records: its text is
"updating WAF Regional SQL Injection Match Set (id): " followed by the text of
the remote error. -/
theorem update_error_wraps_id (hashcode : String → Int) (maxAttempts : Nat) (conn : Conn)
    (id : String) (oldT newT : List TupleMap) (token : String) (e : RemoteError)
    (hN : 0 < maxAttempts) (hfetch : conn.GetChangeToken 0 = some token)
    (hupd : ∀ input, conn.UpdateSqlInjectionMatchSet [] input = some e)
    (he : e.kind ≠ ErrorKind.WAFStaleDataException) :
    updateSQLInjectionMatchSet hashcode maxAttempts conn id oldT newT =
        some (some (updateErrorf id (GoError.remote e))) ∧
      (updateErrorf id (GoError.remote e)).Error =
        "updating WAF Regional SQL Injection Match Set (" ++ id ++ "): " ++ e.message := by
  refine ⟨?_, rfl⟩
  obtain ⟨n, rfl⟩ : ∃ n, maxAttempts = n + 1 := ⟨maxAttempts - 1, by omega⟩
  have hstale : (GoError.remote e).IsA ErrorKind.WAFStaleDataException = false := by
    simp [GoError.IsA, he]
  simp [updateSQLInjectionMatchSet, updateRetry, RetryWithToken, hfetch, updateClosure_fresh,
    hupd, hstale]

/-- C20 (idempotent reconciliation).  When the previous list is a permutation
of the desired list, the diff is empty. -/
theorem diff_nil_of_perm (hashcode : String → Int) (D P' : List TupleMap)
    (h : List.Perm P' D) : diffSQLInjectionMatchTuplesWR hashcode P' D = [] :=
  diff_nil_of_identity_perm hashcode P' D (h.map _)

/-! ## The theorems on identity totality, the retryer and the mutations at concrete values -/

/-- The element for the record with data "Foo" has the shape of a set element,
and the identity function returns a value on it. -/
theorem identity_total_witness :
    IsSetElement tupleFoo.toAny ∧
      ∃ i, resourceSQLInjectionMatchSetTupleHashAny sampleHashcode tupleFoo.toAny = some i :=
  ⟨((identity_total sampleHashcode).2 tupleFoo).1,
    (identity_total sampleHashcode).1 tupleFoo.toAny ((identity_total sampleHashcode).2 tupleFoo).1⟩

/-- The closure of the delete always fails when the service always answers with
the token conflict; with a budget of 3 the retryer fetches 3 tokens and the
delete call step ends with the contention-exhausted error. -/
theorem conflict_retry_bound_witness :
    (RetryWithToken (connDeleteFails staleData).GetChangeToken
        (deleteClosure (connDeleteFails staleData) "set-1") 3 0 []).fetches = 3 ∧
      deleteCallStep 3 (connDeleteFails staleData) "set-1" =
        some (some GoError.contentionExhausted) :=
  ⟨(conflict_retry_bound 3 (connDeleteFails staleData).GetChangeToken
      (deleteClosure (connDeleteFails staleData) "set-1") []
      (fun _ _ => ⟨_, _, rfl, rfl⟩)).1,
    (conflict_retry_bound 3 (connDeleteFails staleData).GetChangeToken
      (deleteClosure (connDeleteFails staleData) "set-1") []
      (fun _ _ => ⟨_, _, rfl, rfl⟩)).2.1⟩

/-- A delete whose reconciliation fails with an access error reports that
error, and a delete on a service without failures reports none. -/
theorem delete_error_propagation_witness :
    resourceSQLInjectionMatchSetDelete sampleHashcode 3 (connUpdateFails accessDenied) "set-1"
        [tupleB] =
      some ["updating WAF Regional SQL Injection Match Set (set-1): AccessDeniedException"] := by
  obtain ⟨u, c, hu, -, h, -, -⟩ :=
    delete_error_propagation sampleHashcode 3 (connUpdateFails accessDenied) "set-1" [tupleB]
  have hu' : deleteReconcileStep sampleHashcode 3 (connUpdateFails accessDenied) "set-1"
      [tupleB] = some (some (updateErrorf "set-1" (GoError.remote accessDenied))) := by decide
  have hue : u = some (updateErrorf "set-1" (GoError.remote accessDenied)) :=
    Option.some.inj (hu.symm.trans hu')
  exact h _ hue (by rw [hue]; decide)

/-- With a budget of 3, a first token and an access error on the request, the
reconciliation of `[A]` against `[]` returns the wrapped access error. -/
theorem update_error_wraps_id_witness :
    updateSQLInjectionMatchSet sampleHashcode 3 (connUpdateFails accessDenied) "set-1"
        [tupleA] [] =
      some (some (updateErrorf "set-1" (GoError.remote accessDenied))) :=
  (update_error_wraps_id sampleHashcode 3 (connUpdateFails accessDenied) "set-1" [tupleA] []
    "token-0" accessDenied (by decide) (by decide) (fun _ => rfl) (by decide)).1

/-- The list `[C, B]` is a permutation of `[B, C]`, and its diff against
`[B, C]` is empty. -/
theorem diff_nil_of_perm_witness :
    List.Perm [tupleC, tupleB] [tupleB, tupleC] ∧
      diffSQLInjectionMatchTuplesWR sampleHashcode [tupleC, tupleB] [tupleB, tupleC] = [] :=
  ⟨List.Perm.swap _ _ _,
    diff_nil_of_perm sampleHashcode [tupleB, tupleC] [tupleC, tupleB] (List.Perm.swap _ _ _)⟩

/-! ## Lemmas on counting and on the delete path -/

theorem identityCount_eq_zero_of_none (hashcode : String → Int) (D : List TupleMap)
    (p r : TupleMap) (h : sliceContainsMap hashcode D p = none)
    (hr : sameIdentity hashcode r p) : identityCount hashcode r D = 0 := by
  have hnone := (sliceContainsMap_none_iff hashcode D p).1 h
  unfold identityCount
  rw [List.countP_eq_zero]
  intro x hx hrx
  exact hnone x hx (sameIdentity_trans (sameIdentity_symm hr) (of_decide_eq_true hrx))

theorem identityCount_split (hashcode : String → Int) (l₁ l₂ : List TupleMap) (d r : TupleMap) :
    identityCount hashcode r (l₁ ++ d :: l₂) =
      identityCount hashcode r (l₁ ++ l₂) + (if sameIdentity hashcode r d then 1 else 0) := by
  unfold identityCount
  simp only [List.countP_append, List.countP_cons, decide_eq_true_eq]
  omega

theorem identityCount_cons (hashcode : String → Int) (p r : TupleMap) (P : List TupleMap) :
    identityCount hashcode r (p :: P) =
      identityCount hashcode r P + (if sameIdentity hashcode r p then 1 else 0) := by
  unfold identityCount
  simp only [List.countP_cons, decide_eq_true_eq]

/-- Per identity, the unmatched previous records and the records left in `newT`
are the surplus of one list over the other. -/
theorem identityCount_loops (hashcode : String → Int) (P D : List TupleMap) (r : TupleMap) :
    identityCount hashcode r (unmatchedOld hashcode P D) =
        identityCount hashcode r P - identityCount hashcode r D ∧
      identityCount hashcode r (remainingNew hashcode P D) =
        identityCount hashcode r D - identityCount hashcode r P := by
  induction P generalizing D with
  | nil => simp [unmatchedOld, remainingNew, identityCount]
  | cons p P ih =>
    cases h : sliceContainsMap hashcode D p with
    | none =>
      obtain ⟨ih₁, ih₂⟩ := ih D
      simp only [unmatchedOld, remainingNew, h, identityCount_cons, ih₁, ih₂]
      by_cases hr : sameIdentity hashcode r p
      · have hz := identityCount_eq_zero_of_none hashcode D p r h hr
        simp only [hr, if_true, hz]
        omega
      · simp only [hr, if_false]
        omega
    | some idx =>
      obtain ⟨l₁, d, l₂, h₁, h₂, h₃, -, -⟩ := sliceContainsMap_some hashcode D p idx h
      obtain ⟨ih₁, ih₂⟩ := ih (D.eraseIdx idx)
      have hiff : sameIdentity hashcode r d ↔ sameIdentity hashcode r p :=
        ⟨fun hrd => sameIdentity_trans hrd (sameIdentity_symm h₃),
          fun hrp => sameIdentity_trans hrp h₃⟩
      have hD : identityCount hashcode r D =
          identityCount hashcode r (D.eraseIdx idx) +
            (if sameIdentity hashcode r p then 1 else 0) := by
        rw [h₂]
        conv_lhs => rw [h₁]
        rw [identityCount_split]
        by_cases hrp : sameIdentity hashcode r p
        · simp [hrp, hiff.2 hrp]
        · have hrd : ¬ sameIdentity hashcode r d := fun hrd => hrp (hiff.1 hrd)
          simp [hrp, hrd]
      simp only [unmatchedOld, remainingNew, h, identityCount_cons, ih₁, ih₂, hD]
      by_cases hrp : sameIdentity hashcode r p
      · simp only [hrp, if_true]
        omega
      · simp only [hrp, if_false]
        omega

theorem operationIdentityCount_diff_delete (hashcode : String → Int) (P D : List TupleMap)
    (r : TupleMap) :
    operationIdentityCount hashcode ChangeAction.Delete r
        (diffSQLInjectionMatchTuplesWR hashcode P D) =
      identityCount hashcode r (unmatchedOld hashcode P D) := by
  unfold operationIdentityCount identityCount
  rw [diff_eq, List.countP_append, List.countP_map, List.countP_map]
  have h₁ : ((fun u : SqlInjectionMatchSetUpdate =>
      decide (u.Action = ChangeAction.Delete) &&
        decide (sameIdentity hashcode r (carriedRecord u))) ∘ deleteUpdate) =
      fun x => decide (sameIdentity hashcode r x) := by
    funext x
    have ha : (deleteUpdate x).Action = ChangeAction.Delete := rfl
    simp only [Function.comp, carriedRecord_deleteUpdate, ha, decide_True, Bool.true_and]
  have h₂ : ((fun u : SqlInjectionMatchSetUpdate =>
      decide (u.Action = ChangeAction.Delete) &&
        decide (sameIdentity hashcode r (carriedRecord u))) ∘ insertUpdate) =
      fun _ => false := by
    funext x
    simp [insertUpdate]
  rw [h₁, h₂]
  simp

theorem operationIdentityCount_diff_insert (hashcode : String → Int) (P D : List TupleMap)
    (r : TupleMap) :
    operationIdentityCount hashcode ChangeAction.Insert r
        (diffSQLInjectionMatchTuplesWR hashcode P D) =
      identityCount hashcode r (remainingNew hashcode P D) := by
  unfold operationIdentityCount identityCount
  rw [diff_eq, List.countP_append, List.countP_map, List.countP_map]
  have h₁ : ((fun u : SqlInjectionMatchSetUpdate =>
      decide (u.Action = ChangeAction.Insert) &&
        decide (sameIdentity hashcode r (carriedRecord u))) ∘ insertUpdate) =
      fun x => decide (sameIdentity hashcode r x) := by
    funext x
    have ha : (insertUpdate x).Action = ChangeAction.Insert := rfl
    simp only [Function.comp, carriedRecord_insertUpdate, ha, decide_True, Bool.true_and]
  have h₂ : ((fun u : SqlInjectionMatchSetUpdate =>
      decide (u.Action = ChangeAction.Insert) &&
        decide (sameIdentity hashcode r (carriedRecord u))) ∘ deleteUpdate) =
      fun _ => false := by
    funext x
    simp [deleteUpdate]
  rw [h₁, h₂]
  simp

/-- Every previous record is matched or unmatched, and every desired record is
matched away or left in `newT`. -/
theorem loops_length (hashcode : String → Int) (P D : List TupleMap) :
    (unmatchedOld hashcode P D).length + (matchedOld hashcode P D).length = P.length ∧
      (remainingNew hashcode P D).length + (matchedOld hashcode P D).length = D.length := by
  induction P generalizing D with
  | nil => simp [unmatchedOld, matchedOld, remainingNew]
  | cons p P ih =>
    cases h : sliceContainsMap hashcode D p with
    | none =>
      obtain ⟨ih₁, ih₂⟩ := ih D
      simp only [unmatchedOld, matchedOld, remainingNew, h, List.length_cons]
      omega
    | some idx =>
      obtain ⟨l₁, d, l₂, h₁, h₂, -, -, -⟩ := sliceContainsMap_some hashcode D p idx h
      obtain ⟨ih₁, ih₂⟩ := ih (D.eraseIdx idx)
      have hlen : D.length = (D.eraseIdx idx).length + 1 := by
        rw [h₂]
        conv_lhs => rw [h₁]
        simp only [List.length_append, List.length_cons]
        omega
      simp only [unmatchedOld, matchedOld, remainingNew, h, List.length_cons]
      omega

theorem diff_nil_right_eq (hashcode : String → Int) (P : List TupleMap) :
    diffSQLInjectionMatchTuplesWR hashcode P [] = P.map deleteUpdate := by
  have hu : ∀ P : List TupleMap, unmatchedOld hashcode P [] = P := by
    intro P
    induction P with
    | nil => rfl
    | cons p P ih => simp [unmatchedOld, sliceContainsMap, ih]
  have hr : remainingNew hashcode P [] = [] :=
    List.eq_nil_of_sublist_nil (remainingNew_sublist hashcode P [])
  rw [diff_eq, hu, hr]
  simp

/-- The requests issued through the retryer extend the requests issued
before. -/
theorem updateRetry_requests_extend (hashcode : String → Int) (conn : Conn) (id : String)
    (oldT : List TupleMap) (remaining attempt : Nat) (st : UpdateClosureState) :
    ∃ rest, (RetryWithToken conn.GetChangeToken (updateClosure hashcode conn id oldT)
        remaining attempt st).state.requests = st.requests ++ rest := by
  induction remaining generalizing attempt st with
  | zero => exact ⟨[], by simp [RetryWithToken]⟩
  | succ n ih =>
    cases hg : conn.GetChangeToken attempt with
    | none => simpa [RetryWithToken, hg] using ih (attempt + 1) st
    | some token =>
      cases hd : diffSQLInjectionMatchTuplesWRCells hashcode oldT st.newT with
      | none =>
        exact ⟨[], by simp [RetryWithToken, hg, updateClosure, hd]⟩
      | some res =>
        obtain ⟨updates, cells⟩ := res
        cases hc : conn.UpdateSqlInjectionMatchSet st.requests
            { ChangeToken := token, SqlInjectionMatchSetId := id, Updates := updates } with
        | none =>
          exact ⟨[{ ChangeToken := token, SqlInjectionMatchSetId := id, Updates := updates }],
            by simp [RetryWithToken, hg, updateClosure, hd, hc]⟩
        | some e =>
          by_cases hstale : (GoError.remote e).IsA ErrorKind.WAFStaleDataException = true
          · obtain ⟨rest, hrest⟩ := ih (attempt + 1)
              { newT := cells
                requests := st.requests ++
                  [{ ChangeToken := token, SqlInjectionMatchSetId := id, Updates := updates }] }
            refine ⟨{ ChangeToken := token, SqlInjectionMatchSetId := id, Updates := updates } ::
              rest, ?_⟩
            simp only [RetryWithToken, hg, updateClosure, hd, hc, Option.map_some', hstale,
              if_true, hrest]
            simp
          · exact ⟨[{ ChangeToken := token, SqlInjectionMatchSetId := id, Updates := updates }],
              by simp [RetryWithToken, hg, updateClosure, hd, hc, hstale]⟩

theorem deleteReconcileRun_error (hashcode : String → Int) (maxAttempts : Nat) (conn : Conn)
    (id : String) (oldTuples : List TupleMap) :
    (deleteReconcileRun hashcode maxAttempts conn id oldTuples).1 =
      deleteReconcileStep hashcode maxAttempts conn id oldTuples := by
  unfold deleteReconcileRun deleteReconcileStep
  split <;> rfl

/-- The run of the delete returns, and it returns the diagnostics of
`resourceSQLInjectionMatchSetDelete` together with the calls and the requests
of the reconciliation step. -/
theorem deleteRun_returns (hashcode : String → Int) (maxAttempts : Nat) (conn : Conn)
    (id : String) (oldTuples : List TupleMap) :
    ∃ run, resourceSQLInjectionMatchSetDeleteRun hashcode maxAttempts conn id oldTuples =
        some run ∧
      resourceSQLInjectionMatchSetDelete hashcode maxAttempts conn id oldTuples =
        some run.diags ∧
      run.reconciliations = (deleteReconcileRun hashcode maxAttempts conn id oldTuples).2.1 ∧
      run.updateRequests = (deleteReconcileRun hashcode maxAttempts conn id oldTuples).2.2 := by
  obtain ⟨r, hr⟩ := deleteReconcileStep_returns hashcode maxAttempts conn id oldTuples
  obtain ⟨c, hc⟩ := deleteCallStep_returns maxAttempts conn id
  have hc' : (RetryWithToken conn.GetChangeToken (deleteClosure conn id) maxAttempts 0 []).result =
      some c := hc
  have hr' : (deleteReconcileRun hashcode maxAttempts conn id oldTuples).1 = some r := by
    rw [deleteReconcileRun_error, hr]
  cases hf : r.filter (fun err =>
      !err.IsA ErrorKind.WAFNonexistentItemException &&
        !err.IsA ErrorKind.WAFNonexistentContainerException) with
  | some err =>
    have hrun : resourceSQLInjectionMatchSetDeleteRun hashcode maxAttempts conn id oldTuples =
        some { diags := [err.Error]
               reconciliations := (deleteReconcileRun hashcode maxAttempts conn id oldTuples).2.1
               updateRequests := (deleteReconcileRun hashcode maxAttempts conn id oldTuples).2.2
               deleteRequests := [] } := by
      simp only [resourceSQLInjectionMatchSetDeleteRun, hr', hf]
    have hdel : resourceSQLInjectionMatchSetDelete hashcode maxAttempts conn id oldTuples =
        some [err.Error] := by
      simp only [resourceSQLInjectionMatchSetDelete, hr, hf]
    exact ⟨_, hrun, hdel, rfl, rfl⟩
  | none =>
    cases c with
    | none =>
      have hrun : resourceSQLInjectionMatchSetDeleteRun hashcode maxAttempts conn id oldTuples =
          some { diags := []
                 reconciliations :=
                   (deleteReconcileRun hashcode maxAttempts conn id oldTuples).2.1
                 updateRequests :=
                   (deleteReconcileRun hashcode maxAttempts conn id oldTuples).2.2
                 deleteRequests :=
                   (RetryWithToken conn.GetChangeToken (deleteClosure conn id)
                     maxAttempts 0 []).state } := by
        simp only [resourceSQLInjectionMatchSetDeleteRun, hr', hf, hc']
      have hdel : resourceSQLInjectionMatchSetDelete hashcode maxAttempts conn id oldTuples =
          some [] := by
        simp only [resourceSQLInjectionMatchSetDelete, hr, hf, hc]
      exact ⟨_, hrun, hdel, rfl, rfl⟩
    | some err =>
      have hrun : resourceSQLInjectionMatchSetDeleteRun hashcode maxAttempts conn id oldTuples =
          some { diags :=
                   if err.IsA ErrorKind.WAFNonexistentItemException then []
                   else ["deleting WAF Regional SQL Injection Match Set (" ++ id ++ "): " ++
                     err.Error]
                 reconciliations :=
                   (deleteReconcileRun hashcode maxAttempts conn id oldTuples).2.1
                 updateRequests :=
                   (deleteReconcileRun hashcode maxAttempts conn id oldTuples).2.2
                 deleteRequests :=
                   (RetryWithToken conn.GetChangeToken (deleteClosure conn id)
                     maxAttempts 0 []).state } := by
        simp only [resourceSQLInjectionMatchSetDeleteRun, hr', hf, hc']
      have hdel : resourceSQLInjectionMatchSetDelete hashcode maxAttempts conn id oldTuples =
          some (if err.IsA ErrorKind.WAFNonexistentItemException then []
            else ["deleting WAF Regional SQL Injection Match Set (" ++ id ++ "): " ++
              err.Error]) := by
        simp only [resourceSQLInjectionMatchSetDelete, hr, hf, hc]
        split <;> rfl
      exact ⟨_, hrun, hdel, rfl, rfl⟩

/-- With a token at hand and a non-empty recorded tuple set, the first request
of the reconciliation call carries the token, the set id and one Delete per
recorded tuple. -/
theorem deleteReconcile_first_request (hashcode : String → Int) (n : Nat) (conn : Conn)
    (id : String) (oldTuples : List TupleMap) (token : String)
    (hfetch : conn.GetChangeToken 0 = some token) :
    ∃ rest, (updateRetry hashcode (n + 1) conn id oldTuples []).state.requests =
      { ChangeToken := token, SqlInjectionMatchSetId := id,
        Updates := oldTuples.map deleteUpdate } :: rest := by
  have hfresh := updateClosure_fresh hashcode conn id oldTuples [] token
  rw [diff_nil_right_eq] at hfresh
  simp only [updateRetry, RetryWithToken, hfetch, hfresh]
  cases hc : conn.UpdateSqlInjectionMatchSet []
      { ChangeToken := token, SqlInjectionMatchSetId := id,
        Updates := oldTuples.map deleteUpdate } with
  | none => exact ⟨[], rfl⟩
  | some e =>
    by_cases hstale : (GoError.remote e).IsA ErrorKind.WAFStaleDataException = true
    · simp only [Option.map_some', hstale, if_true]
      obtain ⟨rest, hrest⟩ := updateRetry_requests_extend hashcode conn id oldTuples n (0 + 1)
        { newT := (remainingNew hashcode oldTuples []).map some ++
            List.replicate (matchedOld hashcode oldTuples []).length none
          requests := [{ ChangeToken := token, SqlInjectionMatchSetId := id,
                         Updates := oldTuples.map deleteUpdate }] }
      exact ⟨rest, by rw [hrest]; rfl⟩
    · simp only [Option.map_some', hstale]
      exact ⟨[], rfl⟩

/-- Counting records by Record Identity with the helper modelled from the
spec: the number of Deletes carrying a record with the identity of `r` is the
surplus of `P` over `D` in such records, the number of Inserts the surplus of
`D` over `P`, and the length of the result is `|P| + |D|` less twice the
number of matched pairs. -/
theorem identity_count_characterisation (hashcode : String → Int) (P D : List TupleMap)
    (r : TupleMap) :
    operationIdentityCount hashcode ChangeAction.Delete r
        (diffSQLInjectionMatchTuplesWR hashcode P D) =
      identityCount hashcode r P - identityCount hashcode r D ∧
    operationIdentityCount hashcode ChangeAction.Insert r
        (diffSQLInjectionMatchTuplesWR hashcode P D) =
      identityCount hashcode r D - identityCount hashcode r P ∧
    (diffSQLInjectionMatchTuplesWR hashcode P D).length +
        2 * (matchedOld hashcode P D).length = P.length + D.length := by
  obtain ⟨h₁, h₂⟩ := identityCount_loops hashcode P D r
  obtain ⟨l₁, l₂⟩ := loops_length hashcode P D
  rw [operationIdentityCount_diff_delete, operationIdentityCount_diff_insert, h₁, h₂]
  refine ⟨rfl, rfl, ?_⟩
  rw [diff_eq, List.length_append, List.length_map, List.length_map]
  omega

/-! ## The claims on counting and on the delete path -/

/-- C22 (empty desired, the delete path).  Against an empty desired list the
diff is one Delete per previous record, in order, each restating that record's
fields, and it holds no Insert.  Every run of
`resourceSQLInjectionMatchSetDelete` returns; it makes no reconciliation call
and sends no update request when the recorded tuple set is empty, and exactly
one reconciliation call, of the recorded tuples against the empty list, when
it is non-empty.  When the set is non-empty and the service hands out a token,
the first update request carries that token, the set id and those Deletes. -/
theorem diff_nil_right (hashcode : String → Int) :
    (∀ P : List TupleMap,
        diffSQLInjectionMatchTuplesWR hashcode P [] = P.map deleteUpdate ∧
        (∀ u ∈ diffSQLInjectionMatchTuplesWR hashcode P [], u.Action ≠ ChangeAction.Insert) ∧
        ∀ p : TupleMap,
          (deleteUpdate p).SqlInjectionMatchTuple.FieldToMatch =
            expandFieldToMatch p.field_to_match ∧
          (deleteUpdate p).SqlInjectionMatchTuple.TextTransformation = p.text_transformation ∧
          carriedRecord (deleteUpdate p) = p) ∧
      (∀ (maxAttempts : Nat) (conn : Conn) (id : String) (oldTuples : List TupleMap),
        ∃ run,
          resourceSQLInjectionMatchSetDeleteRun hashcode maxAttempts conn id oldTuples =
            some run ∧
          resourceSQLInjectionMatchSetDelete hashcode maxAttempts conn id oldTuples =
            some run.diags ∧
          (oldTuples = [] → run.reconciliations = [] ∧ run.updateRequests = []) ∧
          (oldTuples ≠ [] → run.reconciliations = [(oldTuples, [])])) ∧
      (∀ (n : Nat) (conn : Conn) (id : String) (oldTuples : List TupleMap) (token : String),
        oldTuples ≠ [] → conn.GetChangeToken 0 = some token →
        ∃ run rest,
          resourceSQLInjectionMatchSetDeleteRun hashcode (n + 1) conn id oldTuples = some run ∧
          run.updateRequests =
            { ChangeToken := token, SqlInjectionMatchSetId := id,
              Updates := oldTuples.map deleteUpdate } :: rest) := by
  refine ⟨?_, ?_, ?_⟩
  · intro P
    refine ⟨diff_nil_right_eq hashcode P, ?_, fun p => ⟨rfl, rfl, rfl⟩⟩
    intro u hu
    rw [diff_nil_right_eq] at hu
    obtain ⟨p, -, rfl⟩ := List.mem_map.1 hu
    simp [deleteUpdate]
  · intro maxAttempts conn id oldTuples
    obtain ⟨run, h₁, h₂, h₃, h₄⟩ := deleteRun_returns hashcode maxAttempts conn id oldTuples
    refine ⟨run, h₁, h₂, ?_, ?_⟩
    · intro he
      subst he
      exact ⟨h₃, h₄⟩
    · intro hne
      have hlen : oldTuples.length > 0 := List.length_pos.2 hne
      rw [h₃]
      simp only [deleteReconcileRun, hlen, if_true]
  · intro n conn id oldTuples token hne hfetch
    have hlen : oldTuples.length > 0 := List.length_pos.2 hne
    obtain ⟨run, h₁, -, -, h₄⟩ := deleteRun_returns hashcode (n + 1) conn id oldTuples
    obtain ⟨rest, hrest⟩ := deleteReconcile_first_request hashcode n conn id oldTuples token hfetch
    refine ⟨run, rest, h₁, ?_⟩
    rw [h₄, ← hrest]
    simp only [deleteReconcileRun, hlen, if_true]

/-- The delete of a set that records the tuple `B`, on a service that hands out
tokens: the first update request of the run carries the first token, the set id
and `Delete(B)`. -/
theorem diff_nil_right_witness :
    ∃ run rest,
      resourceSQLInjectionMatchSetDeleteRun sampleHashcode 3 (connDeleteFails accessDenied)
          "set-1" [tupleB] = some run ∧
        run.updateRequests =
          { ChangeToken := "token-0", SqlInjectionMatchSetId := "set-1",
            Updates := [deleteUpdate tupleB] } :: rest :=
  (diff_nil_right sampleHashcode).2.2 2 (connDeleteFails accessDenied) "set-1" [tupleB]
    "token-0" (by decide) (by decide)

end WAFRegional

namespace FIS

/-! ## Lemmas on the target expansion -/

theorem GoMap.mem_set {α : Type} (m : GoMap α) (k : String) (v : α) (e : String × α)
    (h : e ∈ GoMap.set m k v) : e ∈ m ∨ e = (k, v) := by
  simp only [GoMap.set, List.mem_append, List.mem_filter, List.mem_singleton] at h
  rcases h with ⟨h, -⟩ | h
  · exact Or.inl h
  · exact Or.inr h

/-- The element has both a non-empty `resource_arns` and a non-empty
`resource_tag`. -/
theorem expandCreateTarget_error_iff (raw : TargetMap) :
    (∃ err, expandCreateTarget raw = Except.error err) ↔
      raw.resource_arns ≠ [] ∧ raw.resource_tag ≠ [] := by
  by_cases ha : raw.resource_arns = [] <;> by_cases ht : raw.resource_tag = [] <;>
    simp [expandCreateTarget, ha, ht, List.length_pos]

theorem expandCreateTarget_error (raw : TargetMap) (err : String)
    (h : expandCreateTarget raw = Except.error err) : err = errOnlyOne := by
  by_cases ha : raw.resource_arns = [] <;> by_cases ht : raw.resource_tag = [] <;>
    simp [expandCreateTarget, ha, ht, List.length_pos] at h
  exact h.symm

theorem expandCreateTarget_ok (raw : TargetMap) (c : CreateExperimentTemplateTargetInput)
    (h : expandCreateTarget raw = Except.ok c) :
    ¬ (c.ResourceArns.isSome = true ∧ c.ResourceTags.isSome = true) := by
  by_cases ha : raw.resource_arns = [] <;> by_cases ht : raw.resource_tag = [] <;>
    simp [expandCreateTarget, ha, ht, List.length_pos] at h <;>
    subst h <;> split_ifs <;> simp

theorem expandCreateLoop_spec (l : List TargetMap)
    (attrs : GoMap CreateExperimentTemplateTargetInput)
    (hattrs : ∀ e ∈ attrs, ¬ (e.2.ResourceArns.isSome = true ∧ e.2.ResourceTags.isSome = true)) :
    ((expandCreateLoop l attrs).2.isSome = true ↔
        ∃ r ∈ l, r.resource_arns ≠ [] ∧ r.resource_tag ≠ []) ∧
      ((expandCreateLoop l attrs).2.isSome = true →
        expandCreateLoop l attrs = (none, some errOnlyOne)) ∧
      ((expandCreateLoop l attrs).2 = none →
        ∃ m, (expandCreateLoop l attrs).1 = some m ∧
          ∀ e ∈ m, ¬ (e.2.ResourceArns.isSome = true ∧ e.2.ResourceTags.isSome = true)) := by
  induction l generalizing attrs with
  | nil =>
    exact ⟨by simp [expandCreateLoop], by simp [expandCreateLoop], fun _ => ⟨attrs, rfl, hattrs⟩⟩
  | cons raw rest ih =>
    cases hx : expandCreateTarget raw with
    | error err =>
      have herr := expandCreateTarget_error raw err hx
      have hboth := (expandCreateTarget_error_iff raw).1 ⟨err, hx⟩
      subst herr
      refine ⟨?_, ?_, ?_⟩
      · simp only [expandCreateLoop, hx, Option.isSome_some, true_iff]
        exact ⟨raw, List.mem_cons_self _ _, hboth⟩
      · intro _
        simp [expandCreateLoop, hx]
      · simp [expandCreateLoop, hx]
    | ok config =>
      have hnot : ¬ (raw.resource_arns ≠ [] ∧ raw.resource_tag ≠ []) := fun hb =>
        by
          obtain ⟨err, he⟩ := (expandCreateTarget_error_iff raw).2 hb
          rw [hx] at he
          cases he
      have hconfig := expandCreateTarget_ok raw config hx
      have hattrs' : ∀ e ∈ (if (raw.name != "") = true then GoMap.set attrs raw.name config
          else attrs), ¬ (e.2.ResourceArns.isSome = true ∧ e.2.ResourceTags.isSome = true) := by
        intro e he
        split at he
        · rcases GoMap.mem_set _ _ _ _ he with h | h
          · exact hattrs e h
          · subst h
            exact hconfig
        · exact hattrs e he
      obtain ⟨h₁, h₂, h₃⟩ := ih _ hattrs'
      simp only [expandCreateLoop, hx]
      refine ⟨?_, h₂, h₃⟩
      rw [h₁]
      constructor
      · rintro ⟨r, hr, hb⟩
        exact ⟨r, List.mem_cons_of_mem _ hr, hb⟩
      · rintro ⟨r, hr, hb⟩
        rcases List.mem_cons.1 hr with rfl | hr
        · exact absurd hb hnot
        · exact ⟨r, hr, hb⟩

theorem expandUpdateTarget_error (raw : TargetMap) (err : String)
    (h : expandUpdateTarget raw = Except.error err) : err = errOnlyOne := by
  by_cases ha : raw.resource_arns = [] <;> by_cases ht : raw.resource_tag = [] <;>
    simp [expandUpdateTarget, ha, ht, List.length_pos] at h
  exact h.symm

theorem expandCreateLoop_error (l : List TargetMap)
    (attrs : GoMap CreateExperimentTemplateTargetInput) (err : String)
    (h : (expandCreateLoop l attrs).2 = some err) : err = errOnlyOne := by
  induction l generalizing attrs with
  | nil => simp [expandCreateLoop] at h
  | cons raw rest ih =>
    cases hx : expandCreateTarget raw with
    | error e =>
      simp only [expandCreateLoop, hx, Option.some.injEq] at h
      exact h ▸ expandCreateTarget_error raw e hx
    | ok config =>
      simp only [expandCreateLoop, hx] at h
      exact ih _ h

theorem expandUpdateLoop_error (l : List TargetMap)
    (attrs : GoMap UpdateExperimentTemplateTargetInput) (err : String)
    (h : (expandUpdateLoop l attrs).2 = some err) : err = errOnlyOne := by
  induction l generalizing attrs with
  | nil => simp [expandUpdateLoop] at h
  | cons raw rest ih =>
    cases hx : expandUpdateTarget raw with
    | error e =>
      simp only [expandUpdateLoop, hx, Option.some.injEq] at h
      exact h ▸ expandUpdateTarget_error raw e hx
    | ok config =>
      simp only [expandUpdateLoop, hx] at h
      exact ih _ h

theorem expandTargets_error (l : List TargetMap) (err : String)
    (h : (expandExperimentTemplateTargets l).2 = some err) : err = errOnlyOne := by
  unfold expandExperimentTemplateTargets at h
  split at h
  · simp at h
  · exact expandCreateLoop_error l [] err h

theorem expandTargetsForUpdate_error (l : List TargetMap) (err : String)
    (h : (expandExperimentTemplateTargetsForUpdate l).2 = some err) : err = errOnlyOne := by
  unfold expandExperimentTemplateTargetsForUpdate at h
  split at h
  · simp at h
  · exact expandUpdateLoop_error l [] err h

theorem expandCreateLoop_map (l : List TargetMap)
    (attrs : GoMap CreateExperimentTemplateTargetInput)
    (h : (expandCreateLoop l attrs).2 = none) : (expandCreateLoop l attrs).1.isSome = true := by
  induction l generalizing attrs with
  | nil => simp [expandCreateLoop]
  | cons raw rest ih =>
    cases hx : expandCreateTarget raw with
    | error e => simp [expandCreateLoop, hx] at h
    | ok config =>
      simp only [expandCreateLoop, hx] at h ⊢
      exact ih _ h

theorem expandTargets_map (l : List TargetMap)
    (h : (expandExperimentTemplateTargets l).2 = none) :
    (expandExperimentTemplateTargets l).1.isSome = true := by
  unfold expandExperimentTemplateTargets at h ⊢
  split
  · rfl
  · rename_i hl
    simp only [hl, if_false] at h
    exact expandCreateLoop_map l [] h

/-! ## The claims on the target expansion -/

/-- C12 (mutual-exclusion validation).  The expansion of a target set returns
an error exactly when some element has both a non-empty `resource_arns` and a
non-empty `resource_tag`; the error is then "Only one of resource_arns,
resource_tag can be set in a target block" and the map is nil; on success no
entry of the map has both `ResourceArns` and `ResourceTags` set. -/
theorem mutual_exclusion_validation (l : List TargetMap) :
    ((expandExperimentTemplateTargets l).2.isSome = true ↔
        ∃ r ∈ l, r.resource_arns ≠ [] ∧ r.resource_tag ≠ []) ∧
      ((expandExperimentTemplateTargets l).2.isSome = true →
        expandExperimentTemplateTargets l =
          (none, some "Only one of resource_arns, resource_tag can be set in a target block")) ∧
      ((expandExperimentTemplateTargets l).2 = none →
        ∃ m, (expandExperimentTemplateTargets l).1 = some m ∧
          ∀ e ∈ m, ¬ (e.2.ResourceArns.isSome = true ∧ e.2.ResourceTags.isSome = true)) := by
  by_cases hl : l = []
  · subst hl
    simp [expandExperimentTemplateTargets]
  · have hlen : ¬ l.length = 0 := fun h => hl (List.length_eq_zero.1 h)
    simpa [expandExperimentTemplateTargets, hlen, errOnlyOne] using
      expandCreateLoop_spec l [] (by simp)

/-- C13 (validation before any remote call).  When the target expansion returns
the mutual-exclusion error, create returns it as error diagnostics and issues
no service call; so does update, where the expansion runs when something other
than tags changed and the target attribute changed. -/
theorem validation_before_remote_call (svc : Service) (d : ResourceData) :
    ((expandExperimentTemplateTargets d.target).2.isSome = true →
        (resourceExperimentTemplateCreate svc d).diags =
            ["Only one of resource_arns, resource_tag can be set in a target block"] ∧
          (resourceExperimentTemplateCreate svc d).calls = []) ∧
      (d.hasChangesExceptTags = true → d.hasChangeTarget = true →
        (expandExperimentTemplateTargetsForUpdate d.target).2.isSome = true →
        (resourceExperimentTemplateUpdate svc d).diags =
            ["Only one of resource_arns, resource_tag can be set in a target block"] ∧
          (resourceExperimentTemplateUpdate svc d).calls = []) := by
  constructor
  · intro h
    obtain ⟨err, herr⟩ := Option.isSome_iff_exists.1 h
    have he := expandTargets_error d.target err herr
    subst he
    have hpair : expandExperimentTemplateTargets d.target =
        ((expandExperimentTemplateTargets d.target).1, some errOnlyOne) :=
      Prod.ext rfl herr
    have hrun : resourceExperimentTemplateCreate svc d =
        { diags := [errOnlyOne], calls := [] } := by
      simp only [resourceExperimentTemplateCreate]
      rw [hpair]
    rw [hrun]
    exact ⟨rfl, rfl⟩
  · intro h₁ h₂ h
    obtain ⟨err, herr⟩ := Option.isSome_iff_exists.1 h
    have he := expandTargetsForUpdate_error d.target err herr
    subst he
    have hpair : expandExperimentTemplateTargetsForUpdate d.target =
        ((expandExperimentTemplateTargetsForUpdate d.target).1, some errOnlyOne) :=
      Prod.ext rfl herr
    have hin : updateInput d = Except.error errOnlyOne := by
      simp only [updateInput, h₂, if_true]
      rw [hpair]
    have hrun : resourceExperimentTemplateUpdate svc d =
        { diags := [errOnlyOne], calls := [] } := by
      simp only [resourceExperimentTemplateUpdate, h₁, if_true, hin]
    rw [hrun]
    exact ⟨rfl, rfl⟩

/-- C14 (explicit empty collection on create).  For the empty target set the
expansion succeeds with an explicit empty map; every successful expansion
gives a map that is not nil; so every create request carries the targets, and
the create of a template without targets sends the empty map. -/
theorem explicit_empty_on_create :
    expandExperimentTemplateTargets [] = (some [], none) ∧
      (∀ l : List TargetMap, (expandExperimentTemplateTargets l).2 = none →
        (expandExperimentTemplateTargets l).1.isSome = true) ∧
      (∀ (svc : Service) (d : ResourceData) (input : CreateExperimentTemplateInput),
        RemoteCall.CreateExperimentTemplate input ∈ (resourceExperimentTemplateCreate svc d).calls →
        input.Targets.isSome = true) ∧
      (∀ (svc : Service) (d : ResourceData), d.target = [] →
        (resourceExperimentTemplateCreate svc d).calls.head? =
          some (RemoteCall.CreateExperimentTemplate { Targets := some [] })) := by
  refine ⟨rfl, expandTargets_map, ?_, ?_⟩
  · intro svc d input hmem
    cases hx : expandExperimentTemplateTargets d.target with
    | mk targets err =>
      cases err with
      | some e => simp [resourceExperimentTemplateCreate, hx] at hmem
      | none =>
        have hsome : targets.isSome = true := by
          have := expandTargets_map d.target (by rw [hx])
          rwa [hx] at this
        simp only [resourceExperimentTemplateCreate, hx] at hmem
        cases hc : svc.CreateExperimentTemplate { Targets := targets } with
        | error e =>
          simp only [hc, List.mem_singleton, RemoteCall.CreateExperimentTemplate.injEq] at hmem
          rw [hmem]
          exact hsome
        | ok id =>
          simp only [hc, resourceExperimentTemplateRead, List.mem_append, List.mem_singleton,
            RemoteCall.CreateExperimentTemplate.injEq, reduceCtorEq, or_false] at hmem
          rw [hmem]
          exact hsome
  · intro svc d hd
    have hx : expandExperimentTemplateTargets d.target = (some [], none) := by
      rw [hd]
      rfl
    simp only [resourceExperimentTemplateCreate, hx]
    cases hc : svc.CreateExperimentTemplate { Targets := some [] } with
    | error e => rfl
    | ok id => rfl

/-- C15 (empty collection on update).  For the empty target set the update
expansion returns a nil map, where the create expansion returns an explicit
empty map; the update request built when the target attribute changed to the
empty set is the request built when the target attribute did not change: in
both the targets are omitted. -/
theorem empty_targets_on_update_omitted :
    expandExperimentTemplateTargetsForUpdate [] = (none, none) ∧
      expandExperimentTemplateTargets [] = (some [], none) ∧
      (∀ (id : String) (l : List TargetMap),
        updateInput { id := id, target := [], hasChangesExceptTags := true,
                      hasChangeTarget := true } =
          Except.ok { Id := id, Targets := none } ∧
        updateInput { id := id, target := l, hasChangesExceptTags := true,
                      hasChangeTarget := false } =
          Except.ok { Id := id, Targets := none }) :=
  ⟨rfl, rfl, fun _ _ => ⟨rfl, rfl⟩⟩

/-! ## The theorems on the target expansion at concrete targets -/

/-- The set with the targets by ARN and by tag expands without error and no
entry has both fields set; the set that also holds the target with both is
rejected. -/
theorem mutual_exclusion_validation_witness :
    (expandExperimentTemplateTargets [targetByArn, targetBoth]).2.isSome = true ∧
      expandExperimentTemplateTargets [targetByArn, targetBoth] =
        (none, some "Only one of resource_arns, resource_tag can be set in a target block") ∧
      (expandExperimentTemplateTargets [targetByArn, targetByTag]).2 = none ∧
      (∃ m, (expandExperimentTemplateTargets [targetByArn, targetByTag]).1 = some m ∧
        ∀ e ∈ m, ¬ (e.2.ResourceArns.isSome = true ∧ e.2.ResourceTags.isSome = true)) :=
  ⟨by decide,
    (mutual_exclusion_validation [targetByArn, targetBoth]).2.1 (by decide),
    by decide,
    (mutual_exclusion_validation [targetByArn, targetByTag]).2.2 (by decide)⟩

/-- The create and the update of a template whose target has both fields
return the validation error and call nothing. -/
theorem validation_before_remote_call_witness :
    ((resourceExperimentTemplateCreate serviceOk
          { id := "", target := [targetBoth], hasChangesExceptTags := true,
            hasChangeTarget := true }).diags =
        ["Only one of resource_arns, resource_tag can be set in a target block"] ∧
      (resourceExperimentTemplateCreate serviceOk
          { id := "", target := [targetBoth], hasChangesExceptTags := true,
            hasChangeTarget := true }).calls = []) ∧
    ((resourceExperimentTemplateUpdate serviceOk
          { id := "EXT123", target := [targetBoth], hasChangesExceptTags := true,
            hasChangeTarget := true }).diags =
        ["Only one of resource_arns, resource_tag can be set in a target block"] ∧
      (resourceExperimentTemplateUpdate serviceOk
          { id := "EXT123", target := [targetBoth], hasChangesExceptTags := true,
            hasChangeTarget := true }).calls = []) :=
  ⟨(validation_before_remote_call serviceOk
      { id := "", target := [targetBoth], hasChangesExceptTags := true,
        hasChangeTarget := true }).1 (by decide),
    (validation_before_remote_call serviceOk
      { id := "EXT123", target := [targetBoth], hasChangesExceptTags := true,
        hasChangeTarget := true }).2 rfl rfl (by decide)⟩

/-- The create of a template with one target by ARN sends a request whose
targets are set. -/
theorem explicit_empty_on_create_witness :
    (expandExperimentTemplateTargets [targetByArn]).1.isSome = true ∧
      (resourceExperimentTemplateCreate serviceOk
          { id := "", target := [], hasChangesExceptTags := true,
            hasChangeTarget := true }).calls.head? =
        some (RemoteCall.CreateExperimentTemplate { Targets := some [] }) :=
  ⟨explicit_empty_on_create.2.1 [targetByArn] (by decide),
    explicit_empty_on_create.2.2.2 serviceOk
      { id := "", target := [], hasChangesExceptTags := true, hasChangeTarget := true } rfl⟩

/-! ## Lemmas on maps and on the two expansions -/

theorem GoMap.set_map {α β : Type} (f : α → β) (m : GoMap α) (k : String) (v : α) :
    (GoMap.set m k v).map (fun e => (e.1, f e.2)) =
      GoMap.set (m.map (fun e => (e.1, f e.2))) k (f v) := by
  simp only [GoMap.set, List.map_append, List.map_cons, List.map_nil, List.filter_map]
  rfl

theorem GoMap.keys_set {α : Type} (m : GoMap α) (k : String) (v : α) :
    (GoMap.set m k v).keys = m.keys.filter (fun x => x != k) ++ [k] := by
  simp only [GoMap.set, GoMap.keys, List.map_append, List.map_cons, List.map_nil,
    List.filter_map]
  rfl

theorem GoMap.mem_keys_set {α : Type} (m : GoMap α) (k : String) (v : α) (x : String) :
    x ∈ (GoMap.set m k v).keys ↔ x ∈ m.keys ∨ x = k := by
  rw [GoMap.keys_set]
  simp only [List.mem_append, List.mem_filter, List.mem_singleton, bne_iff_ne, ne_eq]
  constructor
  · rintro (⟨h, -⟩ | h)
    · exact Or.inl h
    · exact Or.inr h
  · rintro (h | h)
    · by_cases hx : x = k
      · exact Or.inr hx
      · exact Or.inl ⟨h, hx⟩
    · exact Or.inr h

theorem GoMap.nodup_keys_set {α : Type} (m : GoMap α) (k : String) (v : α)
    (h : m.keys.Nodup) : (GoMap.set m k v).keys.Nodup := by
  rw [GoMap.keys_set]
  refine List.Nodup.append (h.filter _) (List.nodup_singleton k) ?_
  intro x hx hk
  rw [List.mem_singleton] at hk
  subst hk
  simp [List.mem_filter] at hx

theorem GoMap.length_set_le {α : Type} (m : GoMap α) (k : String) (v : α) :
    (GoMap.set m k v).length ≤ m.length + 1 := by
  simp only [GoMap.set, List.length_append, List.length_singleton]
  exact Nat.add_le_add_right (List.length_filter_le _ _) 1

/-- The body of the update loop builds, field by field, what the body of the
create loop builds. -/
theorem expandUpdateTarget_eq (raw : TargetMap) :
    expandUpdateTarget raw =
      match expandCreateTarget raw with
      | Except.error err => Except.error err
      | Except.ok c => Except.ok c.toUpdate := by
  by_cases h₁ : raw.filter.length > 0 <;>
  by_cases h₂ : raw.resource_arns.length > 0 <;>
  by_cases h₃ : raw.resource_tag.length > 0 <;>
  by_cases h₄ : (raw.resource_type != "") = true <;>
  by_cases h₅ : (raw.selection_mode != "") = true <;>
  by_cases h₆ : raw.parameters.length > 0 <;>
  simp only [expandUpdateTarget, expandCreateTarget,
    CreateExperimentTemplateTargetInput.toUpdate, h₁, h₂, h₃, h₄, h₅, h₆, if_true, if_false,
    decide_True, decide_False, and_self, and_true, and_false, Bool.false_eq_true]

theorem expandUpdateLoop_eq (l : List TargetMap)
    (attrs : GoMap CreateExperimentTemplateTargetInput) :
    expandUpdateLoop l (attrs.map (fun e => (e.1, e.2.toUpdate))) =
      ((expandCreateLoop l attrs).1.map (fun m => m.map (fun e => (e.1, e.2.toUpdate))),
        (expandCreateLoop l attrs).2) := by
  induction l generalizing attrs with
  | nil => rfl
  | cons raw rest ih =>
    have hu := expandUpdateTarget_eq raw
    cases hx : expandCreateTarget raw with
    | error err =>
      rw [hx] at hu
      simp only [expandUpdateLoop, expandCreateLoop, hx, hu, Option.map_none']
    | ok config =>
      rw [hx] at hu
      simp only [expandUpdateLoop, expandCreateLoop, hx, hu]
      by_cases hn : (raw.name != "") = true
      · rw [if_pos hn, if_pos hn, ← GoMap.set_map]
        exact ih _
      · rw [if_neg hn, if_neg hn]
        exact ih _

theorem expandCreateLoop_keys (l : List TargetMap)
    (attrs m : GoMap CreateExperimentTemplateTargetInput)
    (h : (expandCreateLoop l attrs).1 = some m) :
    (∀ k, k ∈ m.keys ↔ k ∈ attrs.keys ∨ (k ≠ "" ∧ ∃ r ∈ l, r.name = k)) ∧
      (attrs.keys.Nodup → m.keys.Nodup) ∧ m.length ≤ attrs.length + l.length := by
  induction l generalizing attrs with
  | nil =>
    simp only [expandCreateLoop, Option.some.injEq] at h
    subst h
    simp
  | cons raw rest ih =>
    cases hx : expandCreateTarget raw with
    | error err => simp [expandCreateLoop, hx] at h
    | ok config =>
      simp only [expandCreateLoop, hx] at h
      by_cases hn : (raw.name != "") = true
      · rw [if_pos hn] at h
        obtain ⟨h₁, h₂, h₃⟩ := ih _ h
        have hne : raw.name ≠ "" := by simpa using hn
        refine ⟨?_, fun hnd => h₂ (GoMap.nodup_keys_set _ _ _ hnd), ?_⟩
        · intro k
          rw [h₁, GoMap.mem_keys_set]
          constructor
          · rintro ((hk | hk) | ⟨hk, r, hr, hrk⟩)
            · exact Or.inl hk
            · exact Or.inr ⟨hk ▸ hne, raw, List.mem_cons_self _ _, hk.symm⟩
            · exact Or.inr ⟨hk, r, List.mem_cons_of_mem _ hr, hrk⟩
          · rintro (hk | ⟨hk, r, hr, hrk⟩)
            · exact Or.inl (Or.inl hk)
            · rcases List.mem_cons.1 hr with rfl | hr
              · exact Or.inl (Or.inr hrk.symm)
              · exact Or.inr ⟨hk, r, hr, hrk⟩
        · have := GoMap.length_set_le attrs raw.name config
          simp only [List.length_cons]
          omega
      · rw [if_neg hn] at h
        obtain ⟨h₁, h₂, h₃⟩ := ih _ h
        have he : raw.name = "" := by simpa using hn
        refine ⟨?_, h₂, ?_⟩
        · intro k
          rw [h₁]
          constructor
          · rintro (hk | ⟨hk, r, hr, hrk⟩)
            · exact Or.inl hk
            · exact Or.inr ⟨hk, r, List.mem_cons_of_mem _ hr, hrk⟩
          · rintro (hk | ⟨hk, r, hr, hrk⟩)
            · exact Or.inl hk
            · rcases List.mem_cons.1 hr with rfl | hr
              · exact absurd (hrk ▸ he) hk
              · exact Or.inr ⟨hk, r, hr, hrk⟩
        · simp only [List.length_cons]
          omega

theorem GoMap.set_singleton_same (k v : String) :
    GoMap.set [(k, v)] k v = [(k, v)] := by
  simp [GoMap.set]

theorem actionTargets_fold (first : GoMap String) (rest : List (Option (GoMap String)))
    (hrest : ∀ m ∈ rest, ∃ m', m = some m' ∧ m'.length > 0) :
    rest.foldlM (fun (attrs : GoMap String) (m : Option (GoMap String)) =>
      match m with
      | none => none
      | some m =>
        if m.length > 0 then
          let attr := ExpandStringValueMap first
          some (GoMap.set attrs (attr.get "key") (attr.get "value"))
        else some attrs) [(first.get "key", first.get "value")] =
      some [(first.get "key", first.get "value")] := by
  induction rest with
  | nil => rfl
  | cons m rest ih =>
    obtain ⟨m', rfl, hm'⟩ := hrest m (List.mem_cons_self _ _)
    rw [List.foldlM_cons]
    simp only [hm', if_true, ExpandStringValueMap, GoMap.set_singleton_same]
    exact ih (fun x hx => hrest x (List.mem_cons_of_mem _ hx))

theorem flatten_item_key (k v : String) :
    GoMap.get (ExpandStringValueMap (GoMap.set (GoMap.set [] "key" k) "value" v)) "key" = k := by
  simp [GoMap.get, GoMap.set, ExpandStringValueMap, List.lookup]

theorem flatten_item_value (k v : String) :
    GoMap.get (ExpandStringValueMap (GoMap.set (GoMap.set [] "key" k) "value" v)) "value" = v := by
  simp [GoMap.get, GoMap.set, ExpandStringValueMap, List.lookup]

theorem flatten_item_length (k v : String) :
    (GoMap.set (GoMap.set [] "key" k) "value" v).length > 0 := by
  simp [GoMap.set]

theorem GoMap.set_fresh (m : GoMap String) (k v : String) (h : k ∉ m.keys) :
    GoMap.set m k v = m ++ [(k, v)] := by
  simp only [GoMap.set, List.append_cancel_right_eq]
  apply List.filter_eq_self.2
  intro e he
  have : e.1 ≠ k := fun hk => h (hk ▸ List.mem_map_of_mem Prod.fst he)
  simpa using this

/-- Expanding the flattened entries onto a map with other keys appends the
entries. -/
theorem expand_flatten_fold (entries acc : GoMap String)
    (hfresh : ∀ e ∈ entries, e.1 ∉ acc.keys) (hnodup : entries.keys.Nodup) :
    (flattenExperimentTemplateTargetResourceTags entries).foldl (fun attrs m =>
      if m.length > 0 then
        let attr := ExpandStringValueMap m
        GoMap.set attrs (attr.get "key") (attr.get "value")
      else attrs) acc = acc ++ entries := by
  induction entries generalizing acc with
  | nil => simp [flattenExperimentTemplateTargetResourceTags]
  | cons e es ih =>
    obtain ⟨k, v⟩ := e
    have hk : k ∉ acc.keys := hfresh (k, v) (List.mem_cons_self _ _)
    have hnd : k ∉ GoMap.keys es ∧ (GoMap.keys es).Nodup := by
      simpa [GoMap.keys] using hnodup
    simp only [flattenExperimentTemplateTargetResourceTags, List.map_cons, List.foldl_cons,
      flatten_item_length, if_true, flatten_item_key, flatten_item_value]
    rw [GoMap.set_fresh acc k v hk]
    have := ih (acc ++ [(k, v)])
      (by
        intro e he hmem
        simp only [GoMap.keys, List.map_append, List.map_cons, List.map_nil, List.mem_append,
          List.mem_singleton] at hmem
        rcases hmem with hmem | hmem
        · exact hfresh e (List.mem_cons_of_mem _ he) hmem
        · exact hnd.1 (hmem ▸ List.mem_map_of_mem Prod.fst he))
      hnd.2
    simpa [flattenExperimentTemplateTargetResourceTags] using this

theorem matchItems_last (cs : List Char) (s : List Char) :
    matchItems [{ atom := RxAtom.oneOf cs, plus := false }] s = true ↔
      ∃ c, s = [c] ∧ c ∈ cs := by
  cases s with
  | nil => simp [matchItems]
  | cons x s =>
    cases s with
    | nil => simp [matchItems, RxAtom.accepts]
    | cons y s => simp [matchItems, RxAtom.accepts]

theorem matchItems_digits_last (cs : List Char) (s : List Char) :
    matchItems [{ atom := RxAtom.digit, plus := true },
        { atom := RxAtom.oneOf cs, plus := false }] s = true ↔
      ∃ digits unit, s = digits ++ [unit] ∧ digits ≠ [] ∧
        (∀ d ∈ digits, d.isDigit = true) ∧ unit ∈ cs := by
  induction s with
  | nil => simp [matchItems]
  | cons x s ih =>
    simp only [matchItems, RxAtom.accepts, if_true, Bool.and_eq_true, Bool.or_eq_true, ih,
      matchItems_last]
    constructor
    · rintro ⟨hx, ⟨digits, unit, rfl, -, hd, hu⟩ | ⟨c, rfl, hc⟩⟩
      · refine ⟨x :: digits, unit, rfl, by simp, ?_, hu⟩
        intro d hmem
        rcases List.mem_cons.1 hmem with rfl | hmem
        · exact hx
        · exact hd d hmem
      · exact ⟨[x], c, rfl, by simp, by simpa using hx, hc⟩
    · rintro ⟨digits, unit, heq, hne, hd, hu⟩
      cases digits with
      | nil => exact absurd rfl hne
      | cons d ds =>
        simp only [List.cons_append, List.cons.injEq] at heq
        obtain ⟨rfl, rfl⟩ := heq
        refine ⟨hd x (List.mem_cons_self _ _), ?_⟩
        cases ds with
        | nil => exact Or.inr ⟨unit, rfl, hu⟩
        | cons d' ds' =>
          exact Or.inl ⟨d' :: ds', unit, rfl, by simp,
            fun y hy => hd y (List.mem_cons_of_mem _ hy), hu⟩

/-- The strings the expression accepts: "PT", one or more digits, then one of
the characters listed in the bracket expression. -/
theorem matchItems_reportDuration (s : List Char) :
    matchItems reportDurationPattern s = true ↔
      ∃ digits unit, s = 'P' :: 'T' :: (digits ++ [unit]) ∧ digits ≠ [] ∧
        (∀ d ∈ digits, d.isDigit = true) ∧ unit ∈ ['M', '|', 'H', '|', 'S'] := by
  cases s with
  | nil => simp [reportDurationPattern, matchItems]
  | cons a s =>
    cases s with
    | nil => simp [reportDurationPattern, matchItems, RxAtom.accepts]
    | cons b s =>
      have h := matchItems_digits_last ['M', '|', 'H', '|', 'S'] s
      simp only [reportDurationPattern, matchItems, RxAtom.accepts, Bool.and_eq_true,
        beq_iff_eq, Bool.false_eq_true, if_false] at h ⊢
      constructor
      · rintro ⟨rfl, rfl, hrest⟩
        obtain ⟨digits, unit, rfl, h₁, h₂, h₃⟩ := h.1 hrest
        exact ⟨digits, unit, rfl, h₁, h₂, h₃⟩
      · rintro ⟨digits, unit, heq, h₁, h₂, h₃⟩
        simp only [List.cons.injEq] at heq
        obtain ⟨rfl, rfl, rfl⟩ := heq
        exact ⟨rfl, rfl, h.2 ⟨digits, unit, rfl, h₁, h₂, h₃⟩⟩

theorem validateReportDuration_none_iff (v : String) :
    validateReportDuration v = none ↔ matchItems reportDurationPattern v.data = true := by
  unfold validateReportDuration
  split <;> simp_all

/-! ## The claims on the expansions, the validator and the tag round trip -/

/-- C23 (create and update target expansion agree).  On a non-empty set the two
expansions return the same error value, and the map of the update expansion is
the map of the create expansion with every entry copied field by field: the
same keys, and equal Filters, Parameters, ResourceArns, ResourceTags,
ResourceType and SelectionMode. -/
theorem create_update_expansion_agree (l : List TargetMap) (hl : l ≠ []) :
    (expandExperimentTemplateTargetsForUpdate l).2 = (expandExperimentTemplateTargets l).2 ∧
      (expandExperimentTemplateTargetsForUpdate l).1 =
        (expandExperimentTemplateTargets l).1.map
          (fun m => m.map (fun e => (e.1, e.2.toUpdate))) ∧
      ∀ c : CreateExperimentTemplateTargetInput,
        c.toUpdate.Filters = c.Filters ∧ c.toUpdate.Parameters = c.Parameters ∧
          c.toUpdate.ResourceArns = c.ResourceArns ∧ c.toUpdate.ResourceTags = c.ResourceTags ∧
          c.toUpdate.ResourceType = c.ResourceType ∧
          c.toUpdate.SelectionMode = c.SelectionMode := by
  have hlen : ¬ l.length = 0 := fun h => hl (List.length_eq_zero.1 h)
  have h := expandUpdateLoop_eq l []
  simp only [List.map_nil] at h
  refine ⟨?_, ?_, fun c => ⟨rfl, rfl, rfl, rfl, rfl, rfl⟩⟩
  · simp only [expandExperimentTemplateTargetsForUpdate, expandExperimentTemplateTargets, hlen,
      if_false, h]
  · simp only [expandExperimentTemplateTargetsForUpdate, expandExperimentTemplateTargets, hlen,
      if_false, h]

/-- C24 (target records are keyed by name).  When the expansion of a non-empty
set succeeds, the keys of the returned map are exactly the non-empty names of
the input records, each key occurs once, and the map has at most as many
entries as the set has records. -/
theorem targets_keyed_by_name (l : List TargetMap) (hl : l ≠ [])
    (hok : (expandExperimentTemplateTargets l).2 = none) :
    ∃ m, (expandExperimentTemplateTargets l).1 = some m ∧
      (∀ k, k ∈ GoMap.keys m ↔ k ≠ "" ∧ ∃ r ∈ l, r.name = k) ∧
      (GoMap.keys m).Nodup ∧ m.length ≤ l.length := by
  have hlen : ¬ l.length = 0 := fun h => hl (List.length_eq_zero.1 h)
  obtain ⟨m, hm⟩ := Option.isSome_iff_exists.1 (expandTargets_map l hok)
  refine ⟨m, hm, ?_⟩
  simp only [expandExperimentTemplateTargets, hlen, if_false] at hm
  obtain ⟨h₁, h₂, h₃⟩ := expandCreateLoop_keys l [] m hm
  refine ⟨?_, h₂ (by simp [GoMap.keys]), by simpa using h₃⟩
  intro k
  rw [h₁]
  simp [GoMap.keys]

/-- C25 (the action targets depend only on the first block).  For a list whose
elements are all non-empty maps the result is the single entry from the first
block's key to the first block's value, whatever the later blocks hold; for the
empty list and for a nil first element the result is nil. -/
theorem action_targets_first_block :
    (∀ (first : GoMap String) (rest : List (Option (GoMap String))),
        first.length > 0 → (∀ m ∈ rest, ∃ m', m = some m' ∧ m'.length > 0) →
        expandExperimentTemplateActionTargets (some first :: rest) =
          some (some [(first.get "key", first.get "value")])) ∧
      expandExperimentTemplateActionTargets [] = some none ∧
      ∀ rest : List (Option (GoMap String)),
        expandExperimentTemplateActionTargets (none :: rest) = some none := by
  refine ⟨?_, rfl, fun _ => rfl⟩
  intro first rest hfirst hrest
  have h := actionTargets_fold first rest hrest
  simp only [expandExperimentTemplateActionTargets, List.foldlM_cons, hfirst, if_true,
    ExpandStringValueMap] at h ⊢
  have hset : GoMap.set ([] : GoMap String) (first.get "key") (first.get "value") =
      [(first.get "key", first.get "value")] := rfl
  simp only [hset, Option.bind_eq_bind, Option.some_bind, h, Option.map_some']

/-- C26 (report duration format).  The validator accepts "PT10|", which is not
in the documented format; it accepts exactly the strings of the documented
format and the strings "PT", digits, "|"; every string gets no message or the
message "must be in the format of PT10S". -/
theorem report_duration_accepts_bar :
    validateReportDuration "PT10|" = none ∧ ¬ IsReportDuration "PT10|" ∧
      validateReportDuration "PT10S" = none ∧
      (∀ v : String, validateReportDuration v = none ↔
        (IsReportDuration v ∨
          ∃ digits : List Char, v.data = 'P' :: 'T' :: (digits ++ ['|']) ∧ digits ≠ [] ∧
            ∀ d ∈ digits, d.isDigit = true)) ∧
      (∀ v : String, validateReportDuration v = none ∨
        validateReportDuration v = some "must be in the format of PT10S") := by
  refine ⟨by decide, ?_, by decide, ?_, ?_⟩
  · rintro ⟨digits, unit, heq, -, -, hu⟩
    have hdata : ("PT10|" : String).data = ['P', 'T', '1', '0', '|'] := rfl
    rw [hdata] at heq
    simp only [List.cons.injEq, true_and] at heq
    have hlast := congrArg List.getLast? heq
    simp at hlast
    subst hlast
    simp at hu
  · intro v
    rw [validateReportDuration_none_iff, matchItems_reportDuration]
    constructor
    · rintro ⟨digits, unit, heq, h₁, h₂, h₃⟩
      by_cases hbar : unit = '|'
      · subst hbar
        exact Or.inr ⟨digits, heq, h₁, h₂⟩
      · refine Or.inl ⟨digits, unit, heq, h₁, h₂, ?_⟩
        simp only [List.mem_cons, List.mem_singleton, List.not_mem_nil, or_false] at h₃ ⊢
        tauto
    · rintro (⟨digits, unit, heq, h₁, h₂, h₃⟩ | ⟨digits, heq, h₁, h₂⟩)
      · refine ⟨digits, unit, heq, h₁, h₂, ?_⟩
        simp only [List.mem_cons, List.mem_singleton, List.not_mem_nil, or_false] at h₃ ⊢
        tauto
      · exact ⟨digits, '|', heq, h₁, h₂, by simp⟩
  · intro v
    unfold validateReportDuration
    split
    · exact Or.inl rfl
    · exact Or.inr rfl

/-- C27 (resource tag round trip).  For a non-empty map, flattening gives one
block per entry and expanding the blocks gives the map again; for the empty map
the flattened list is empty and its expansion is nil. -/
theorem resource_tags_round_trip :
    (∀ m : GoMap String, m ≠ [] → (GoMap.keys m).Nodup →
        expandExperimentTemplateTargetResourceTags
            (flattenExperimentTemplateTargetResourceTags m) = some m ∧
          (flattenExperimentTemplateTargetResourceTags m).length = m.length) ∧
      flattenExperimentTemplateTargetResourceTags [] = [] ∧
      expandExperimentTemplateTargetResourceTags
        (flattenExperimentTemplateTargetResourceTags []) = none := by
  refine ⟨?_, rfl, rfl⟩
  intro m hm hnodup
  have hlen : (flattenExperimentTemplateTargetResourceTags m).length = m.length := by
    simp [flattenExperimentTemplateTargetResourceTags]
  have hne : ¬ (flattenExperimentTemplateTargetResourceTags m).length = 0 := by
    rw [hlen]
    exact fun h => hm (List.length_eq_zero.1 h)
  refine ⟨?_, hlen⟩
  have h := expand_flatten_fold m [] (by simp [GoMap.keys]) hnodup
  simp only [expandExperimentTemplateTargetResourceTags, hne, if_false, h, List.nil_append]

/-! ## The theorems on the expansions at concrete values -/

/-- The set of the targets by ARN and by tag is not empty; its create and
update expansions succeed with the same keys. -/
theorem create_update_expansion_agree_witness :
    [targetByArn, targetByTag] ≠ [] ∧
      (expandExperimentTemplateTargetsForUpdate [targetByArn, targetByTag]).2 =
        (expandExperimentTemplateTargets [targetByArn, targetByTag]).2 :=
  ⟨by decide, (create_update_expansion_agree [targetByArn, targetByTag] (by decide)).1⟩

/-- The expansion of the targets by ARN and by tag succeeds, and its map has at
most two entries. -/
theorem targets_keyed_by_name_witness :
    (expandExperimentTemplateTargets [targetByArn, targetByTag]).2 = none ∧
      ∃ m, (expandExperimentTemplateTargets [targetByArn, targetByTag]).1 = some m ∧
        m.length ≤ 2 := by
  refine ⟨by decide, ?_⟩
  obtain ⟨m, hm, -, -, hlen⟩ :=
    targets_keyed_by_name [targetByArn, targetByTag] (by decide) (by decide)
  exact ⟨m, hm, hlen⟩

/-- Two action target blocks: the result is the entry of the first. -/
theorem action_targets_first_block_witness :
    expandExperimentTemplateActionTargets
        [some [("key", "Instances"), ("value", "one")],
         some [("key", "Pods"), ("value", "two")]] =
      some (some [("Instances", "one")]) :=
  action_targets_first_block.1 [("key", "Instances"), ("value", "one")]
    [some [("key", "Pods"), ("value", "two")]] (by decide)
    (fun m hm => ⟨[("key", "Pods"), ("value", "two")], by simpa using hm, by decide⟩)

/-- The map with the tags `env` and `team` has distinct keys and survives the
round trip. -/
theorem resource_tags_round_trip_witness :
    (GoMap.keys [("env", "test"), ("team", "core")]).Nodup ∧
      expandExperimentTemplateTargetResourceTags
          (flattenExperimentTemplateTargetResourceTags [("env", "test"), ("team", "core")]) =
        some [("env", "test"), ("team", "core")] :=
  ⟨by decide,
    (resource_tags_round_trip.1 [("env", "test"), ("team", "core")] (by decide) (by decide)).1⟩

end FIS

namespace AppRunner

/-! ## Lemmas on the table lookup -/

theorem lookup_eq_some_iff (l : List (String × String)) (hnd : (l.map Prod.fst).Nodup)
    (k v : String) : l.lookup k = some v ↔ (k, v) ∈ l := by
  induction l with
  | nil => simp [List.lookup]
  | cons e es ih =>
    obtain ⟨k', v'⟩ := e
    simp only [List.map_cons, List.nodup_cons] at hnd
    obtain ⟨hk', hes⟩ := hnd
    by_cases hkk : k = k'
    · subst hkk
      have hnot : (k, v) ∉ es := fun hmem => hk' (List.mem_map_of_mem Prod.fst hmem)
      simp [List.lookup, hnot, eq_comm]
    · have hbeq : (k == k') = false := by simpa using hkk
      simp [List.lookup, hbeq, ih hes, hkk]

theorem lookup_eq_none_iff (l : List (String × String)) (k : String) :
    l.lookup k = none ↔ k ∉ l.map Prod.fst := by
  induction l with
  | nil => simp [List.lookup]
  | cons e es ih =>
    obtain ⟨k', v'⟩ := e
    by_cases hkk : k = k'
    · subst hkk
      simp [List.lookup]
    · have hbeq : (k == k') = false := by simpa using hkk
      simp [List.lookup, hbeq, ih, hkk]

theorem table_keys_nodup : (hostedZoneIDPerRegionMap.map Prod.fst).Nodup := by decide

/-! ## The claim on the hosted zone lookup -/

/-- C28 (App Runner hosted zone lookup).  The table has 11 regions.  With a
readable configuration, the read ends without error exactly when the region is
one of them; the state then holds the table entry of the region as id and the
queried region (`us-east-1` gives `Z01915732ZBZKC8D32TPT`); for every other
region the read adds the error "unsupported AWS Region" and writes no state. -/
theorem hosted_zone_lookup (region : String) :
    hostedZoneIDPerRegionMap.length = 11 ∧
      ((Read [] region).Diagnostics = [] ↔ region ∈ hostedZoneIDPerRegionMap.map Prod.fst) ∧
      (∀ zoneID : String, (region, zoneID) ∈ hostedZoneIDPerRegionMap →
        Read [] region =
          { Diagnostics := [], State := some { Region := region, ID := zoneID } }) ∧
      (region ∉ hostedZoneIDPerRegionMap.map Prod.fst →
        Read [] region =
          { Diagnostics := [{ summary := "unsupported AWS Region"
                              detail := "region " ++ region ++ " is currently not supported" }]
            State := none }) ∧
      Read [] "us-east-1" =
        { Diagnostics := []
          State := some { Region := "us-east-1", ID := "Z01915732ZBZKC8D32TPT" } } := by
  refine ⟨rfl, ?_, ?_, ?_, by decide⟩
  · cases hl : hostedZoneIDPerRegionMap.lookup region with
    | none =>
      have hnot := (lookup_eq_none_iff _ _).1 hl
      simp [Read, hl, hnot]
    | some zoneID =>
      have hmem : region ∈ hostedZoneIDPerRegionMap.map Prod.fst :=
        List.mem_map_of_mem Prod.fst
          ((lookup_eq_some_iff _ table_keys_nodup region zoneID).1 hl)
      simp [Read, hl, hmem]
  · intro zoneID hmem
    have hl := (lookup_eq_some_iff _ table_keys_nodup region zoneID).2 hmem
    simp [Read, hl]
  · intro hnot
    have hl := (lookup_eq_none_iff _ region).2 hnot
    simp [Read, hl]

/-- The region `eu-west-3` is in the table and `us-west-1` is not: the first
read writes the state, the second reports the unsupported region. -/
theorem hosted_zone_lookup_witness :
    Read [] "eu-west-3" =
        { Diagnostics := []
          State := some { Region := "eu-west-3", ID := "Z087117439MBKHYM69QS6" } } ∧
      Read [] "us-west-1" =
        { Diagnostics := [{ summary := "unsupported AWS Region"
                            detail := "region us-west-1 is currently not supported" }]
          State := none } :=
  ⟨(hosted_zone_lookup "eu-west-3").2.2.1 "Z087117439MBKHYM69QS6" (by decide),
    (hosted_zone_lookup "us-west-1").2.2.2.1 (by decide)⟩

end AppRunner
